/-
Verification of velbin (src/velbin/binaries.py) against its specification.

The Python module is shallowly embedded: the record array `OrbitalParameters`
becomes a structure of parallel fields `Fin n → ℝ`; the random draws
(`sp.random.rand`, `sp.randn`, `truncnorm.rvs`) become explicit input streams;
the external `sp.stats.chisqprob` becomes a function parameter; `ValueError`s
become `Except` errors.  Machine floats are modelled as real numbers.
-/
import Mathlib

open Real List
open Classical

/-! ## Data model: the `OrbitalParameters` record array.

Source field `mass_ratio` is named `massRatio` here. -/

structure Population (n : ℕ) where
  period : Fin n → ℝ
  massRatio : Fin n → ℝ
  eccentricity : Fin n → ℝ
  phase : Fin n → ℝ
  theta : Fin n → ℝ
  inclination : Fin n → ℝ

/-- `OrbitalParameters.__new__`: all fields 1, eccentricity 0, then
`phase = rand`, `theta = rand*2*pi`, `inclination = arccos(rand*2-1)`,
with `u1 u2 u3` the three uniform streams. -/
noncomputable def mkPopulation (n : ℕ) (u1 u2 u3 : Fin n → ℝ) : Population n :=
  { period := fun _ => 1
    massRatio := fun _ => 1
    eccentricity := fun _ => 0
    phase := u1
    theta := fun i => u2 i * 2 * π
    inclination := fun i => Real.arccos (u3 i * 2 - 1) }

/-! ## Errors (spec section 7) -/

inductive VelbinError where
  | invalidDistributionName (s : String)
  | mismatchedInputLength (which : String)
  | shapeMismatch
  deriving DecidableEq

/-! ## Distribution sampler -/

/-- Argument of `draw_period`: a preset name or an explicit array. -/
inductive PeriodSpec (n : ℕ) where
  | name (s : String)
  | arr (a : Fin n → ℝ)

/-- Standardized lower truncation bound `a = (-1 - mu)/sigma` of the
truncated normal used for the log-normal period presets. -/
noncomputable def truncA (mu sigma : ℝ) : ℝ := (-1 - mu) / sigma

/-- Standardized upper truncation bound `b = (10 - mu)/sigma`. -/
noncomputable def truncB (mu sigma : ℝ) : ℝ := (10 - mu) / sigma

/-- `OrbitalParameters.draw_period`.  `z` is the stream of standardized
truncated-normal samples (`truncnorm.rvs(a, b, size=nbinaries)`), `var` the
uniform stream of the log-power-law branch. -/
noncomputable def draw_period {n : ℕ} (pop : Population n) (period : PeriodSpec n)
    (pmax : Option ℝ) (z : Fin n → ℝ) (var : Fin n → ℝ) :
    Except VelbinError (Population n) :=
  match period with
  | .arr a => .ok { pop with period := a }
  | .name s =>
    if s = "Raghavan10" ∨ s = "DM91" then
      let lp : ℝ × ℝ := if s = "Raghavan10" then (5.03, 2.28) else (4.8, 2.3)
      .ok { pop with period := fun i => (10 : ℝ) ^ (z i * lp.2 + lp.1) / 365.25 }
    else if s = "Sana12" ∨ s = "Sana13" ∨ s = "Kiminki12" then
      let par : ℝ × ℝ × ℝ :=
        if s = "Sana12" then (-0.55, 0.15, 3.5)
        else if s = "Sana13" then (-0.45, 0.15, 3.5)
        else (0.1, 0, 3)
      let slope := par.1
      let pmin := par.2.1
      let pmaxL : ℝ := match pmax with
        | none => par.2.2
        | some p => Real.logb 10 (p * 365.25)
      .ok { pop with period :=
        (fun i =>
          if slope = -1 then
            (10 : ℝ) ^ (pmin ^ (1 - var i) * pmaxL ^ var i) / 365.25
          else
            (10 : ℝ) ^ ((var i * (pmaxL ^ (slope + 1) - pmin ^ (slope + 1))
              + pmin ^ (slope + 1)) ^ (1 / (slope + 1))) / 365.25) }
    else .error (.invalidDistributionName s)

/-- Argument of `draw_mass_ratio`. -/
inductive MassRatioSpec (n : ℕ) where
  | name (s : String)
  | arr (a : Fin n → ℝ)

/-- `OrbitalParameters.draw_mass_ratio` with uniform stream `var`. -/
noncomputable def draw_mass_ratio {n : ℕ} (pop : Population n) (mr : MassRatioSpec n)
    (qminArg qmaxArg : Option ℝ) (var : Fin n → ℝ) :
    Except VelbinError (Population n) :=
  match mr with
  | .arr a => .ok { pop with massRatio := a }
  | .name s =>
    if s = "flat" ∨ s = "Reggiani13" ∨ s = "Sana12" ∨ s = "Sana13" ∨ s = "Kiminki12" then
      let par : ℝ × ℝ × ℝ :=
        if s = "flat" then (0, 0, 1)
        else if s = "Reggiani13" then (0.25, 0.1, 1)
        else if s = "Sana12" then (-0.1, 0.1, 1)
        else if s = "Sana13" then (-1, 0.1, 1)
        else (0.1, 0.005, 1)
      let slope := par.1
      let qmin := qminArg.getD par.2.1
      let qmax := qmaxArg.getD par.2.2
      .ok { pop with massRatio :=
        (fun i =>
          if slope = -1 then qmin ^ (1 - var i) * qmax ^ var i
          else (var i * (qmax ^ (slope + 1) - qmin ^ (slope + 1))
            + qmin ^ (slope + 1)) ^ (1 / (slope + 1))) }
    else .error (.invalidDistributionName s)

/-- Argument of `draw_eccentricities`. -/
inductive EccSpec (n : ℕ) where
  | name (s : String)
  | arr (a : Fin n → ℝ)

/-- The `emax` argument: the string `tidal` or a number. -/
inductive EmaxSpec where
  | tidal
  | const (c : ℝ)

/-- `OrbitalParameters.draw_eccentricities` with uniform stream `var`. -/
noncomputable def draw_eccentricities {n : ℕ} (pop : Population n) (ecc : EccSpec n)
    (emin : ℝ) (emax : EmaxSpec) (var : Fin n → ℝ) :
    Except VelbinError (Population n) :=
  let emaxArr : Fin n → ℝ :=
    match emax with
    | .tidal => fun i =>
        let t := 0.5 * (0.95 + Real.tanh (0.6 * Real.logb 10 (pop.period i * 365.25) - 1.7))
        if t < emin then emin else t
    | .const c => fun _ => c
  match ecc with
  | .arr a => .ok { pop with eccentricity := a }
  | .name s =>
    if s = "flat" then
      .ok { pop with eccentricity := fun i => var i * (emaxArr i - emin) + emin }
    else if s = "thermal" then
      .ok { pop with eccentricity :=
        (fun i => Real.sqrt (var i * ((emaxArr i) ^ 2 - emin ^ 2) + emin ^ 2)) }
    else .error (.invalidDistributionName s)

/-! ## Kepler solver and orbital projector (`OrbitalParameters.velocity`) -/

/-- `semi_major`: `(period ** 2 * mass * (1 + mass_ratio)) ** (1/3)`. -/
noncomputable def semi_major {n : ℕ} (pop : Population n) (mass : Fin n → ℝ) :
    Fin n → ℝ :=
  fun i => (pop.period i ^ 2 * mass i * (1 + pop.massRatio i)) ^ ((1 : ℝ) / 3)

/-- One elementwise Newton update of Kepler's equation. -/
noncomputable def newtonStep (e M E : ℝ) : ℝ :=
  E - (E - e * Real.sin E - M) / (1 - e * Real.cos E)

/-- The vectorized `while` loop of `velocity`, with explicit fuel
(`20 - count_iterations`).  The loop continues while some element changed by
more than `tol` and fuel remains. -/
noncomputable def keplerLoop {n : ℕ} (e M : Fin n → ℝ) (tol : ℝ) :
    ℕ → (Fin n → ℝ) → (Fin n → ℝ) → (Fin n → ℝ)
  | 0, E, _ => E
  | fuel + 1, E, old =>
      if ∃ i, tol < |E i - old i| then
        keplerLoop e M tol fuel (fun i => newtonStep (e i) (M i) (E i)) E
      else E

/-- Default `anomaly_offset` of `velocity`. -/
noncomputable def anomalyOffsetDefault : ℝ := 1e-3

/-- `mean_anomaly = (phase + time / period) * 2 * pi`. -/
noncomputable def mean_anomaly {n : ℕ} (pop : Population n) (time : ℝ) : Fin n → ℝ :=
  fun i => (pop.phase i + time / pop.period i) * 2 * π

/-- The eccentric anomaly computed by `velocity`: the Newton loop started at
`E = mean_anomaly` with `old = zeros - 1` and at most 20 iterations. -/
noncomputable def ecc_anomaly {n : ℕ} (pop : Population n) (time tol : ℝ) : Fin n → ℝ :=
  keplerLoop pop.eccentricity (mean_anomaly pop time) tol 20
    (mean_anomaly pop time) (fun _ => -1)

/-- `theta_orb = 2 * arctan(sqrt((1+e)/(1-e)) * tan(ecc_anomaly/2))`. -/
noncomputable def theta_orb {n : ℕ} (pop : Population n) (time tol : ℝ) : Fin n → ℝ :=
  fun i => 2 * Real.arctan (Real.sqrt ((1 + pop.eccentricity i) / (1 - pop.eccentricity i))
    * Real.tan (ecc_anomaly pop time tol i / 2))

/-- `seperation = (1 - e^2) / (1 + e*cos(theta_orb))` (source spelling kept). -/
noncomputable def seperation {n : ℕ} (pop : Population n) (time tol : ℝ) : Fin n → ℝ :=
  fun i => (1 - pop.eccentricity i ^ 2) / (1 + pop.eccentricity i * Real.cos (theta_orb pop time tol i))

/-- `thdot = 2*pi*sqrt(1 - e^2) / seperation^2`. -/
noncomputable def thdot {n : ℕ} (pop : Population n) (time tol : ℝ) : Fin n → ℝ :=
  fun i => 2 * π * Real.sqrt (1 - pop.eccentricity i ^ 2) / seperation pop time tol i ^ 2

/-- `rdot = seperation * e * thdot * sin(theta_orb) / (1 + e*cos(theta_orb))`. -/
noncomputable def rdot {n : ℕ} (pop : Population n) (time tol : ℝ) : Fin n → ℝ :=
  fun i => seperation pop time tol i * pop.eccentricity i * thdot pop time tol i
    * Real.sin (theta_orb pop time tol i) / (1 + pop.eccentricity i * Real.cos (theta_orb pop time tol i))

/-- `vtotsq = (thdot*seperation)^2 + rdot^2`. -/
noncomputable def vtotsq {n : ℕ} (pop : Population n) (time tol : ℝ) : Fin n → ℝ :=
  fun i => (thdot pop time tol i * seperation pop time tol i) ^ 2 + rdot pop time tol i ^ 2

/-- `vlos` before scaling: projection on the line of sight. -/
noncomputable def vlosRaw {n : ℕ} (pop : Population n) (time tol : ℝ) : Fin n → ℝ :=
  fun i => (thdot pop time tol i * seperation pop time tol i
      * Real.sin (pop.theta i - theta_orb pop time tol i)
    + rdot pop time tol i * Real.cos (pop.theta i - theta_orb pop time tol i))
    * Real.sin (pop.inclination i)

/-- `vperp = sqrt(vtotsq - vlos^2)` before scaling. -/
noncomputable def vperpRaw {n : ℕ} (pop : Population n) (time tol : ℝ) : Fin n → ℝ :=
  fun i => Real.sqrt (vtotsq pop time tol i - vlosRaw pop time tol i ^ 2)

/-- The physical scale `semi_major(mass) / (period * (1 + 1/mass_ratio)) * 4.74057581`. -/
noncomputable def velScale {n : ℕ} (pop : Population n) (mass : Fin n → ℝ) : Fin n → ℝ :=
  fun i => semi_major pop mass i / (pop.period i * (1 + 1 / pop.massRatio i)) * 4.74057581

/-- First row of the returned `velocity` array: radial velocity in km/s. -/
noncomputable def vlosArr {n : ℕ} (pop : Population n) (mass : Fin n → ℝ) (time tol : ℝ) :
    Fin n → ℝ :=
  fun i => vlosRaw pop time tol i * velScale pop mass i

/-- Second row of the returned `velocity` array: proper motion in km/s. -/
noncomputable def vperpArr {n : ℕ} (pop : Population n) (mass : Fin n → ℝ) (time tol : ℝ) :
    Fin n → ℝ :=
  fun i => vperpRaw pop time tol i * velScale pop mass i

/-- `OrbitalParameters.velocity`: the 2×N array as a pair of rows. -/
noncomputable def velocity {n : ℕ} (pop : Population n) (mass : Fin n → ℝ) (time tol : ℝ) :
    (Fin n → ℝ) × (Fin n → ℝ) :=
  (vlosArr pop mass time tol, vperpArr pop mass time tol)

/-! ## Single-epoch density builder (`OrbitalParameters.single_epoch`) -/

/-- numpy `cumsum`. -/
noncomputable def cumsum (l : List ℝ) : List ℝ := (l.scanl (· + ·) 0).tail

/-- `sp.sort`: sort ascending. -/
noncomputable def sortR (l : List ℝ) : List ℝ := l.insertionSort (· ≤ ·)

/-- numpy `arange start stop step` for positive step. -/
noncomputable def arange (start stop step : ℝ) : List ℝ :=
  (List.range (Nat.ceil ((stop - start) / step))).map (fun i => start + i * step)

/-- numpy `searchsorted` (side `left`) of a single value into a sorted list:
the number of elements strictly below `v`. -/
noncomputable def searchsorted (vel : List ℝ) (v : ℝ) : ℕ :=
  vel.countP (fun x => decide (x < v))

/-- The projected total speeds `sp.sum(self.velocity(1.) ** 2., 0) ** .5`
(unit mass, time 0), before sorting. -/
noncomputable def speeds {n : ℕ} (pop : Population n) (tol : ℝ) : List ℝ :=
  List.ofFn fun i =>
    (vlosArr pop (fun _ => 1) 0 tol i ^ 2 + vperpArr pop (fun _ => 1) 0 tol i ^ 2) ^ ((1 : ℝ) / 2)

/-- `cum_weight = sp.cumsum(1. / vel[::-1])[::-1]`. -/
noncomputable def cum_weight (vel : List ℝ) : List ℝ :=
  (cumsum (vel.reverse.map (fun v => 1 / v))).reverse

/-- The positive bin boundaries `vbord = 10 ** sp.arange(log_minv, log_maxv, log_stepv)`
with `log_maxv` defaulting to `log10` of the largest speed. -/
noncomputable def vbordSE (vel : List ℝ) (logMinv : ℝ) (logMaxv : Option ℝ) (logStepv : ℝ) :
    List ℝ :=
  (arange logMinv (logMaxv.getD (Real.logb 10 (vel.getLastD 0))) logStepv).map
    (fun x => (10 : ℝ) ^ x)

/-- The body of the `for ix in range(len(vbord))` loop of `single_epoch`:
the value appended to `pdist` for bin `ix`. -/
noncomputable def pdistAt (vel vbord : List ℝ) (ix : ℕ) : ℝ :=
  let vtot := 0 :: vbord
  let lower := vtot.getD ix 0
  let upper := vtot.getD (ix + 1) 0
  let ixlo := if ix = 0 then 0 else searchsorted vel (vbord.getD (ix - 1) 0)
  let ixhi := searchsorted vel (vbord.getD ix 0)
  let vuse := (vel.drop ixlo).take (ixhi - ixlo)
  let est := if ixhi = vel.length then 0 else (cum_weight vel).getD ixhi 0
  est + (vuse.map (fun v => (v - lower) / v)).sum / (upper - lower)

/-- The full `pdist` list. -/
noncomputable def pdistList (vel vbord : List ℝ) : List ℝ :=
  (List.range vbord.length).map (pdistAt vel vbord)

/-- `vbound = sp.append(-vbord[::-1], sp.append(0, vbord))`. -/
noncomputable def vboundOf (vbord : List ℝ) : List ℝ :=
  (vbord.reverse.map (fun v => -v)) ++ 0 :: vbord

/-- `prob = sp.append(pdist[::-1], pdist) / 2. / len(vel)`. -/
noncomputable def probOf (vel vbord : List ℝ) : List ℝ :=
  ((pdistList vel vbord).reverse ++ pdistList vel vbord).map
    (fun p => p / 2 / (vel.length : ℝ))

/-- The arguments handed to the external `fitter.BinaryFit` by `single_epoch`. -/
structure BinaryFitSE where
  velObs : List ℝ
  sigvel : List ℝ
  mass : List ℝ
  vbound : List ℝ
  prob : List ℝ

/-- `OrbitalParameters.single_epoch`. -/
noncomputable def single_epoch {n : ℕ} (pop : Population n) (velObs sigvel mass : List ℝ)
    (logMinv : ℝ) (logMaxv : Option ℝ) (logStepv tol : ℝ) : BinaryFitSE :=
  let vel := sortR (speeds pop tol)
  let vbord := vbordSE vel logMinv logMaxv logStepv
  { velObs := velObs, sigvel := sigvel, mass := mass
    vbound := vboundOf vbord, prob := probOf vel vbord }

/-! ## Multi-epoch classifier and density builder (`OrbitalParameters.multi_epoch`)

A star's broadcast observations are a list of `(date, velocity, sigvel)`
triples; `vbin` is the per-date population radial-velocity table
(`self.velocity(1., time=date)[0]`); `sp.stats.chisqprob` is the external
function parameter `chisqprob`; `sp.randn` streams are `noise`. -/

/-- `weight = mult_sigvel ** -2` for one observation. -/
noncomputable def obsWeight (o : ℝ × ℝ × ℝ) : ℝ := o.2.2 ^ (-2 : ℤ)

/-- `sp.sum(weight)`. -/
noncomputable def sumWeight (obs : List (ℝ × ℝ × ℝ)) : ℝ := (obs.map obsWeight).sum

/-- `rv_binoffset_per_epoch[:, ixepoch] = vbin[date]`. -/
noncomputable def rvBinoffsetPerEpoch {nb : ℕ} (vbin : ℝ → Fin nb → ℝ)
    (obs : List (ℝ × ℝ × ℝ)) (b : Fin nb) (ix : Fin obs.length) : ℝ :=
  vbin (obs.get ix).1 b

/-- `rv_offset_per_epoch[:, ixepoch] = rv_binoffset_per_epoch[:, ixepoch] * pmass ** (1/3) + sp.randn(size) * sv`. -/
noncomputable def rvOffsetPerEpoch {nb : ℕ} (vbin : ℝ → Fin nb → ℝ) (pmass : ℝ)
    (obs : List (ℝ × ℝ × ℝ)) (noise : ℕ → Fin nb → ℝ) (b : Fin nb) (ix : Fin obs.length) : ℝ :=
  rvBinoffsetPerEpoch vbin obs b ix * pmass ^ ((1 : ℝ) / 3) + noise ix b * (obs.get ix).2.2

/-- `rv_offset_mean`: inverse-variance weighted mean of the synthetic offsets. -/
noncomputable def rvOffsetMean {nb : ℕ} (vbin : ℝ → Fin nb → ℝ) (pmass : ℝ)
    (obs : List (ℝ × ℝ × ℝ)) (noise : ℕ → Fin nb → ℝ) (b : Fin nb) : ℝ :=
  (∑ ix, rvOffsetPerEpoch vbin pmass obs noise b ix * obsWeight (obs.get ix)) / sumWeight obs

/-- `chisq` per synthetic binary. -/
noncomputable def chisqSynth {nb : ℕ} (vbin : ℝ → Fin nb → ℝ) (pmass : ℝ)
    (obs : List (ℝ × ℝ × ℝ)) (noise : ℕ → Fin nb → ℝ) (b : Fin nb) : ℝ :=
  ∑ ix, (rvOffsetPerEpoch vbin pmass obs noise b ix - rvOffsetMean vbin pmass obs noise b) ^ 2
    * obsWeight (obs.get ix)

/-- `isdetected = sp.stats.chisqprob(chisq, len(epochs) - 1) < pfalse`. -/
noncomputable def isdetected {nb : ℕ} (vbin : ℝ → Fin nb → ℝ) (pmass : ℝ)
    (obs : List (ℝ × ℝ × ℝ)) (noise : ℕ → Fin nb → ℝ) (chisqprob : ℝ → ℕ → ℝ)
    (pfalse : ℝ) (b : Fin nb) : Bool :=
  decide (chisqprob (chisqSynth vbin pmass obs noise b) (obs.length - 1) < pfalse)

/-- `pdet = float(sp.sum(isdetected)) / isdetected.size`. -/
noncomputable def pdetOf (nb : ℕ) (vbin : ℝ → Fin nb → ℝ) (pmass : ℝ)
    (obs : List (ℝ × ℝ × ℝ)) (noise : ℕ → Fin nb → ℝ) (chisqprob : ℝ → ℕ → ℝ)
    (pfalse : ℝ) : ℝ :=
  ((List.ofFn (isdetected vbin pmass obs noise chisqprob pfalse)).count true : ℝ) / (nb : ℝ)

/-- Weighted mean of the unscaled template offsets per synthetic binary. -/
noncomputable def binoffWMean {nb : ℕ} (vbin : ℝ → Fin nb → ℝ)
    (obs : List (ℝ × ℝ × ℝ)) (b : Fin nb) : ℝ :=
  (∑ ix, rvBinoffsetPerEpoch vbin obs b ix * obsWeight (obs.get ix)) / sumWeight obs

/-- `rv_binoffset = (weighted mean of rv_binoffset_per_epoch)[~isdetected]`. -/
noncomputable def rvBinoffsetND (nb : ℕ) (vbin : ℝ → Fin nb → ℝ) (pmass : ℝ)
    (obs : List (ℝ × ℝ × ℝ)) (noise : ℕ → Fin nb → ℝ) (chisqprob : ℝ → ℕ → ℝ)
    (pfalse : ℝ) : List ℝ :=
  ((List.ofFn (fun b => (binoffWMean vbin obs b,
      isdetected vbin pmass obs noise chisqprob pfalse b))).filter
    (fun p => !p.2)).map (fun p => p.1)

/-- `mean_rv = sp.sum(mult_vel * weight) / sp.sum(weight)`. -/
noncomputable def obsMeanRv (obs : List (ℝ × ℝ × ℝ)) : ℝ :=
  (obs.map (fun o => o.2.1 * obsWeight o)).sum / sumWeight obs

/-- `mean_sig = sp.sum(weight) ** -.5`. -/
noncomputable def obsMeanSig (obs : List (ℝ × ℝ × ℝ)) : ℝ :=
  sumWeight obs ^ (-(1 : ℝ) / 2)

/-- `rvvariable = sp.stats.chisqprob(sp.sum((mean_rv - mult_vel)**2 * weight), len(epochs)-1) < pfalse`. -/
noncomputable def rvvarOf (obs : List (ℝ × ℝ × ℝ)) (chisqprob : ℝ → ℕ → ℝ)
    (pfalse : ℝ) : Bool :=
  decide (chisqprob ((obs.map (fun o => (obsMeanRv obs - o.2.1) ^ 2 * obsWeight o)).sum)
    (obs.length - 1) < pfalse)

/-- Everything `multi_epoch` records about one star. -/
structure StarResult where
  meanRv : ℝ
  meanSig : ℝ
  rvBinoffset : List ℝ
  pdet : ℝ
  rvvariable : Bool
  pmassOut : ℝ

instance : Inhabited StarResult := ⟨⟨0, 0, [], 0, false, 0⟩⟩

/-- The body of the per-star loop of `multi_epoch`: the single-observation
branch records the single velocity and uncertainty, the unscaled population
offset table at that epoch, `pdet = 0.` and `rvvariable = False`; the
multi-observation branch runs the synthetic replay and the chi-square tests. -/
noncomputable def perStar (nb : ℕ) (vbin : ℝ → Fin nb → ℝ) (pmass : ℝ)
    (obs : List (ℝ × ℝ × ℝ)) (noise : ℕ → Fin nb → ℝ) (chisqprob : ℝ → ℕ → ℝ)
    (pfalse : ℝ) : StarResult :=
  match obs with
  | [o] =>
      { meanRv := o.2.1, meanSig := o.2.2
        rvBinoffset := List.ofFn (fun b => vbin o.1 b)
        pdet := 0, rvvariable := false, pmassOut := pmass }
  | _ =>
      { meanRv := obsMeanRv obs, meanSig := obsMeanSig obs
        rvBinoffset := rvBinoffsetND nb vbin pmass obs noise chisqprob pfalse
        pdet := pdetOf nb vbin pmass obs noise chisqprob pfalse
        rvvariable := rvvarOf obs chisqprob pfalse, pmassOut := pmass }

/-- The per-star loop over `zip(velocity, sigvel, mass, dates)`; the counter
indexes the per-star `sp.randn` streams. -/
noncomputable def starResults (nb : ℕ) (vbin : ℝ → Fin nb → ℝ) (chisqprob : ℝ → ℕ → ℝ)
    (pfalse : ℝ) (noise : ℕ → ℕ → Fin nb → ℝ) :
    ℕ → List (List (ℝ × ℝ × ℝ) × ℝ) → List StarResult
  | _, [] => []
  | ix, (obs, pm) :: rest =>
      perStar nb vbin pm obs (noise ix) chisqprob pfalse ::
        starResults nb vbin chisqprob pfalse noise (ix + 1) rest

/-- `is_single`: one flag per input star, `not rvvariable`. -/
noncomputable def isSingleList (nb : ℕ) (vbin : ℝ → Fin nb → ℝ) (chisqprob : ℝ → ℕ → ℝ)
    (pfalse : ℝ) (noise : ℕ → ℕ → Fin nb → ℝ) (stars : List (List (ℝ × ℝ × ℝ) × ℝ)) :
    List Bool :=
  (starResults nb vbin chisqprob pfalse noise 0 stars).map (fun r => !r.rvvariable)

/-- The stars that end in the `else` (non-variable) branch, in order. -/
noncomputable def singlesOf (nb : ℕ) (vbin : ℝ → Fin nb → ℝ) (chisqprob : ℝ → ℕ → ℝ)
    (pfalse : ℝ) (noise : ℕ → ℕ → Fin nb → ℝ) (stars : List (List (ℝ × ℝ × ℝ) × ℝ)) :
    List StarResult :=
  (starResults nb vbin chisqprob pfalse noise 0 stars).filter (fun r => !r.rvvariable)

/-- The stars flagged as radial-velocity variable, in order. -/
noncomputable def variablesOf (nb : ℕ) (vbin : ℝ → Fin nb → ℝ) (chisqprob : ℝ → ℕ → ℝ)
    (pfalse : ℝ) (noise : ℕ → ℕ → Fin nb → ℝ) (stars : List (List (ℝ × ℝ × ℝ) × ℝ)) :
    List StarResult :=
  (starResults nb vbin chisqprob pfalse noise 0 stars).filter (fun r => r.rvvariable)

/-- `vmean` output array. -/
noncomputable def vmeanList (nb : ℕ) (vbin : ℝ → Fin nb → ℝ) (chisqprob : ℝ → ℕ → ℝ)
    (pfalse : ℝ) (noise : ℕ → ℕ → Fin nb → ℝ) (stars : List (List (ℝ × ℝ × ℝ) × ℝ)) :
    List ℝ :=
  (singlesOf nb vbin chisqprob pfalse noise stars).map (fun r => r.meanRv)

/-- `sigmean` output array. -/
noncomputable def sigmeanList (nb : ℕ) (vbin : ℝ → Fin nb → ℝ) (chisqprob : ℝ → ℕ → ℝ)
    (pfalse : ℝ) (noise : ℕ → ℕ → Fin nb → ℝ) (stars : List (List (ℝ × ℝ × ℝ) × ℝ)) :
    List ℝ :=
  (singlesOf nb vbin chisqprob pfalse noise stars).map (fun r => r.meanSig)

/-- `single_mass` output array. -/
noncomputable def singleMassList (nb : ℕ) (vbin : ℝ → Fin nb → ℝ) (chisqprob : ℝ → ℕ → ℝ)
    (pfalse : ℝ) (noise : ℕ → ℕ → Fin nb → ℝ) (stars : List (List (ℝ × ℝ × ℝ) × ℝ)) :
    List ℝ :=
  (singlesOf nb vbin chisqprob pfalse noise stars).map (fun r => r.pmassOut)

/-- `pdet_single` output array. -/
noncomputable def pdetSingleList (nb : ℕ) (vbin : ℝ → Fin nb → ℝ) (chisqprob : ℝ → ℕ → ℝ)
    (pfalse : ℝ) (noise : ℕ → ℕ → Fin nb → ℝ) (stars : List (List (ℝ × ℝ × ℝ) × ℝ)) :
    List ℝ :=
  (singlesOf nb vbin chisqprob pfalse noise stars).map (fun r => r.pdet)

/-- `pdet_rvvar` output array. -/
noncomputable def pdetRvvarList (nb : ℕ) (vbin : ℝ → Fin nb → ℝ) (chisqprob : ℝ → ℕ → ℝ)
    (pfalse : ℝ) (noise : ℕ → ℕ → Fin nb → ℝ) (stars : List (List (ℝ × ℝ × ℝ) × ℝ)) :
    List ℝ :=
  (variablesOf nb vbin chisqprob pfalse noise stars).map (fun r => r.pdet)

/-- `vbord` of `multi_epoch` (`log_maxv` is a plain number there). -/
noncomputable def vbordME (logMinv logMaxv logStepv : ℝ) : List ℝ :=
  (arange logMinv logMaxv logStepv).map (fun x => (10 : ℝ) ^ x)

/-- numpy `histogram(xs, bins=edges)[0]` at bin `k`: half-open bins, the last
bin closed on the right. -/
noncomputable def histCount (edges : List ℝ) (xs : List ℝ) (k : ℕ) : ℕ :=
  xs.countP (fun x => decide (edges.getD k 0 ≤ x ∧
    (x < edges.getD (k + 1) 0 ∨ (k + 2 = edges.length ∧ x = edges.getD (k + 1) 0))))

/-- `prob_bin = sp.histogram(abs(rv_binoffset), bins=sp.append(0, vbord))[0] / size`. -/
noncomputable def probBinOf (vbord : List ℝ) (offs : List ℝ) : List ℝ :=
  (List.range vbord.length).map
    (fun k => (histCount (0 :: vbord) (offs.map (fun x => |x|)) k : ℝ) / (offs.length : ℝ))

/-- One row of `pbin`: `sp.append(prob_bin[::-1], prob_bin) / 2. / (vbound[1:] - vbound[:-1])`. -/
noncomputable def pbinRow (vbord : List ℝ) (offs : List ℝ) : List ℝ :=
  List.zipWith (fun p w => p / 2 / w)
    ((probBinOf vbord offs).reverse ++ probBinOf vbord offs)
    (List.zipWith (fun a b => a - b) ((vboundOf vbord).drop 1) (vboundOf vbord))

/-- `pbin` output matrix (one row per non-variable star; the final transpose
is presentation only and omitted). -/
noncomputable def pbinList (nb : ℕ) (vbin : ℝ → Fin nb → ℝ) (chisqprob : ℝ → ℕ → ℝ)
    (pfalse : ℝ) (noise : ℕ → ℕ → Fin nb → ℝ) (vbord : List ℝ)
    (stars : List (List (ℝ × ℝ × ℝ) × ℝ)) : List (List ℝ) :=
  (singlesOf nb vbin chisqprob pfalse noise stars).map (fun r => pbinRow vbord r.rvBinoffset)

/-- numpy 1-D broadcast of one star's `epochs, mult_vel, mult_sigvel`:
lists of a common length pass through, length-1 lists are stretched,
anything else is a shape error. -/
noncomputable def stretch (l : List ℝ) (m : ℕ) : Option (List ℝ) :=
  if l.length = m then some l
  else if l.length = 1 then some (List.replicate m (l.getD 0 0))
  else none

/-- `sp.broadcast_arrays(epochs, mult_vel, mult_sigvel)`, zipped into
`(date, velocity, sigvel)` triples. -/
noncomputable def broadcast3 (ds vs ss : List ℝ) : Option (List (ℝ × ℝ × ℝ)) :=
  let m := max ds.length (max vs.length ss.length)
  match stretch ds m, stretch vs m, stretch ss m with
  | some d, some v, some s => some (d.zip (v.zip s))
  | _, _, _ => none

/-- `zip(velocity, sigvel, mass, dates)` with per-star broadcasting. -/
noncomputable def mkStars :
    List (List ℝ) → List (List ℝ) → List ℝ → List (List ℝ) →
    Option (List (List (ℝ × ℝ × ℝ) × ℝ))
  | v :: vr, s :: sr, m :: mr, d :: dr =>
      match broadcast3 d v s, mkStars vr sr mr dr with
      | some obs, some rest => some ((obs, m) :: rest)
      | _, _ => none
  | _, _, _, _ => some []

/-- The scalar-or-list `mass` argument of `multi_epoch`. -/
inductive MassArgME where
  | scalar (m : ℝ)
  | array (l : List ℝ)

/-- `if sp.asarray(mass).ndim == 0: mass = [mass] * len(velocity)`. -/
noncomputable def massListME (m : MassArgME) (nstars : ℕ) : List ℝ :=
  match m with
  | .scalar x => List.replicate nstars x
  | .array l => l

/-- The arguments handed to the external `fitter.BinaryFit` by `multi_epoch`. -/
structure MEResult where
  vmean : List ℝ
  sigmean : List ℝ
  singleMass : List ℝ
  vbound : List ℝ
  pbin : List (List ℝ)
  pdetSingle : List ℝ
  pdetRvvar : List ℝ
  isSingle : List Bool

/-- `OrbitalParameters.multi_epoch`.  The `vbin` table is
`self.velocity(1., time=date)[0]` (computed per distinct date in the source;
functionally the same table). -/
noncomputable def multi_epoch {n : ℕ} (pop : Population n) (vels sigvels : List (List ℝ))
    (mass : MassArgME) (dates : List (List ℝ)) (chisqprob : ℝ → ℕ → ℝ)
    (noise : ℕ → ℕ → Fin n → ℝ) (pfalse logMinv logMaxv logStepv tol : ℝ) :
    Except VelbinError MEResult :=
  let massL := massListME mass vels.length
  if sigvels.length ≠ vels.length then .error (.mismatchedInputLength "sigvel")
  else if massL.length ≠ vels.length then .error (.mismatchedInputLength "mass")
  else if dates.length ≠ vels.length then .error (.mismatchedInputLength "dates")
  else
    let vbin : ℝ → Fin n → ℝ := fun date => vlosArr pop (fun _ => 1) date tol
    let vbord := vbordME logMinv logMaxv logStepv
    match mkStars vels sigvels massL dates with
    | none => .error .shapeMismatch
    | some stars =>
        .ok { vmean := vmeanList n vbin chisqprob pfalse noise stars
              sigmean := sigmeanList n vbin chisqprob pfalse noise stars
              singleMass := singleMassList n vbin chisqprob pfalse noise stars
              vbound := vboundOf vbord
              pbin := pbinList n vbin chisqprob pfalse noise vbord stars
              pdetSingle := pdetSingleList n vbin chisqprob pfalse noise stars
              pdetRvvar := pdetRvvarList n vbin chisqprob pfalse noise stars
              isSingle := isSingleList n vbin chisqprob pfalse noise stars }

/-! ## Fake dataset generator (`OrbitalParameters.fake_dataset`) -/

/-- Scalar-or-array argument (`sigvel`, `mass`). -/
inductive ScalarOrArr (n : ℕ) where
  | scalar (x : ℝ)
  | arr (a : Fin n → ℝ)

/-- Pointwise view of a scalar-or-array argument. -/
noncomputable def soaAt {n : ℕ} : ScalarOrArr n → Fin n → ℝ
  | .scalar x, _ => x
  | .arr a, i => a i

/-- `self[:nvel]`: the first `m` population entries. -/
noncomputable def popTake {n : ℕ} (pop : Population n) (m : ℕ) (h : m ≤ n) : Population m :=
  { period := fun i => pop.period (Fin.castLE h i)
    massRatio := fun i => pop.massRatio (Fin.castLE h i)
    eccentricity := fun i => pop.eccentricity (Fin.castLE h i)
    phase := fun i => pop.phase (Fin.castLE h i)
    theta := fun i => pop.theta (Fin.castLE h i)
    inclination := fun i => pop.inclination (Fin.castLE h i) }

/-- `bin_index = sp.rand(nvel) < fbin`. -/
noncomputable def binIndex (nvel : ℕ) (fbin : ℝ) (randU : Fin nvel → ℝ) : Fin nvel → Bool :=
  fun s => decide (randU s < fbin)

/-- `v_bin_offset` after `v_bin_offset[:, ~bin_index] = 0.`. -/
noncomputable def fakeBinOffset {n : ℕ} (pop : Population n) (nvel : ℕ) (h : nvel ≤ n)
    (mass : ScalarOrArr nvel) (dates : List ℝ) (fbin : ℝ) (randU : Fin nvel → ℝ)
    (tol : ℝ) (d : Fin dates.length) (s : Fin nvel) : ℝ :=
  if binIndex nvel fbin randU s then
    vlosArr (popTake pop nvel h) (soaAt mass) (dates.get d) tol s
  else 0

/-- `OrbitalParameters.fake_dataset` (the final `sp.squeeze` reshapes only and
is omitted): the epoch×star observed-velocity matrix and the binary flags. -/
noncomputable def fake_dataset {n : ℕ} (pop : Population n) (nvel : ℕ) (h : nvel ≤ n)
    (vdisp fbin : ℝ) (sigvel mass : ScalarOrArr nvel) (dates : List ℝ)
    (randU randNsys : Fin nvel → ℝ) (randNmeas : ℕ → Fin nvel → ℝ) (tol : ℝ) :
    (Fin dates.length → Fin nvel → ℝ) × (Fin nvel → Bool) :=
  (fun d s => randNsys s * vdisp + fakeBinOffset pop nvel h mass dates fbin randU tol d s
      + randNmeas d s * soaAt sigvel s,
   binIndex nvel fbin randU)

/-! ## Concrete instances and spec-side definitions used by the theorems -/

/-- The base population used by the concrete counterexamples. -/
noncomputable def popBase : Population 1 :=
  mkPopulation 1 (fun _ => 0) (fun _ => 0) (fun _ => 0)
/-- The period drawn by `draw_period('Raghavan10', pmax=1)` from the
standardized truncated-normal draw `z = b` (the upper truncation bound,
a legitimate sample of the code's truncated normal). -/
noncomputable def periodPmaxCex : ℝ :=
  match draw_period popBase (.name "Raghavan10") (some 1)
      (fun _ => truncB 5.03 2.28) (fun _ => 0) with
  | .ok p => p.period 0
  | .error _ => 0
/-- The elementwise Newton update applied to a whole state vector. -/
noncomputable def stepVec {n : ℕ} (e M : Fin n → ℝ) (E : Fin n → ℝ) : Fin n → ℝ :=
  fun i => newtonStep (e i) (M i) (E i)
/-- `k`-fold application of the vectorized Newton update. -/
noncomputable def iterNewton {n : ℕ} (e M : Fin n → ℝ) : ℕ → (Fin n → ℝ) → (Fin n → ℝ)
  | 0, E => E
  | k + 1, E => stepVec e M (iterNewton e M k E)
/-- The loop-continuation condition seen before iteration `j + 1` when the
loop was entered with state `E` and previous state `old`: some element moved
by more than `tol` in the previous comparison. -/
noncomputable def contAt {n : ℕ} (e M : Fin n → ℝ) (tol : ℝ) (E old : Fin n → ℝ) :
    ℕ → Prop
  | 0 => ∃ i, tol < |E i - old i|
  | j + 1 => ∃ i, tol < |iterNewton e M (j + 1) E i - iterNewton e M j E i|
/-- A one-binary population with a hand-computable circular orbit:
period 1 yr, mass ratio 1, eccentricity 0, phase 1/4, theta = pi,
inclination pi/2. -/
noncomputable def popOne : Population 1 :=
  { period := fun _ => 1
    massRatio := fun _ => 1
    eccentricity := fun _ => 0
    phase := fun _ => 1 / 4
    theta := fun _ => π
    inclination := fun _ => π / 2 }
/-- The one-star input used by the C7 witness. -/
noncomputable def starsW : List (List (ℝ × ℝ × ℝ) × ℝ) := [([(0, 0, 1)], 2)]
/-- Spec section 4.4: the in-bin sum of `(speed - lower)/speed` over the
speeds falling in `[lower, upper)`. -/
noncomputable def specInBinSum (vel : List ℝ) (lower upper : ℝ) : ℝ :=
  ((vel.filter (fun x => decide (lower ≤ x) && decide (x < upper))).map
    (fun v => (v - lower) / v)).sum
/-- Spec section 4.4: the tail correction, the sum of `1/speed` over speeds
at or beyond the bin's upper edge. -/
noncomputable def specTailSum (vel : List ℝ) (upper : ℝ) : ℝ :=
  ((vel.filter (fun x => decide (upper ≤ x))).map (fun x => 1 / x)).sum
/-- The bin value asserted by the claim: in-bin sum plus tail correction,
the whole quantity divided by the bin width. -/
noncomputable def specBinValueClaimed (vel : List ℝ) (lower upper : ℝ) : ℝ :=
  (specInBinSum vel lower upper + specTailSum vel upper) / (upper - lower)

/-! ## Theorems -/

/-- **C6**: for any string argument that is not one of the documented preset
names, each of `draw_period`, `draw_mass_ratio` and `draw_eccentricities`
fails with `InvalidDistributionName` and returns no (partial) population:
the caller's population is untouched. -/
theorem draw_unknown_preset_errors {n : ℕ} (pop : Population n) (s1 s2 s3 : String)
    (pmax : Option ℝ) (z var1 var2 var3 : Fin n → ℝ) (qmin qmax : Option ℝ)
    (emin : ℝ) (emax : EmaxSpec)
    (h1 : s1 ∉ ["Raghavan10", "DM91", "Sana12", "Sana13", "Kiminki12"])
    (h2 : s2 ∉ ["flat", "Reggiani13", "Sana12", "Sana13", "Kiminki12"])
    (h3 : s3 ∉ ["flat", "thermal"]) :
    draw_period pop (.name s1) pmax z var1 = .error (.invalidDistributionName s1) ∧
    draw_mass_ratio pop (.name s2) qmin qmax var2 = .error (.invalidDistributionName s2) ∧
    draw_eccentricities pop (.name s3) emin emax var3 = .error (.invalidDistributionName s3) := by
  refine ⟨?_, ?_, ?_⟩
  · have n1 : ¬(s1 = "Raghavan10" ∨ s1 = "DM91") := by
      rintro (rfl | rfl) <;> simp at h1
    have n2 : ¬(s1 = "Sana12" ∨ s1 = "Sana13" ∨ s1 = "Kiminki12") := by
      rintro (rfl | rfl | rfl) <;> simp at h1
    simp only [draw_period]
    rw [if_neg n1, if_neg n2]
  · have n1 : ¬(s2 = "flat" ∨ s2 = "Reggiani13" ∨ s2 = "Sana12" ∨ s2 = "Sana13" ∨
        s2 = "Kiminki12") := by
      rintro (rfl | rfl | rfl | rfl | rfl) <;> simp at h2
    simp only [draw_mass_ratio]
    rw [if_neg n1]
  · have n1 : ¬(s3 = "flat") := by rintro rfl; simp at h3
    have n2 : ¬(s3 = "thermal") := by rintro rfl; simp at h3
    simp only [draw_eccentricities]
    rw [if_neg n1, if_neg n2]

/-- Witness for C6 at a concrete unknown preset name. -/
theorem draw_unknown_preset_errors_witness :
    draw_period (mkPopulation 1 (fun _ => 0) (fun _ => 0) (fun _ => 0)) (.name "Gauss")
        none (fun _ => 0) (fun _ => 0) = .error (.invalidDistributionName "Gauss") ∧
    draw_mass_ratio (mkPopulation 1 (fun _ => 0) (fun _ => 0) (fun _ => 0)) (.name "Gauss")
        none none (fun _ => 0) = .error (.invalidDistributionName "Gauss") ∧
    draw_eccentricities (mkPopulation 1 (fun _ => 0) (fun _ => 0) (fun _ => 0)) (.name "Gauss")
        0 (.const 1) (fun _ => 0) = .error (.invalidDistributionName "Gauss") :=
  draw_unknown_preset_errors (mkPopulation 1 (fun _ => 0) (fun _ => 0) (fun _ => 0))
    "Gauss" "Gauss" "Gauss" none (fun _ => 0) (fun _ => 0) (fun _ => 0) (fun _ => 0)
    none none 0 (.const 1) (by decide) (by decide) (by decide)

/-- **C9**: for a population with eccentricities in `[0,1)` (and the
data-model field invariants on period, mass ratio and mass), the argument of
the proper-motion square root is non-negative for every entry, because
`|sin(inclination)| ≤ 1` and `(a sin x + b cos x)^2 ≤ a^2 + b^2`; hence the
returned proper-motion row is real and non-negative everywhere. -/
theorem vperp_sqrt_arg_nonneg {n : ℕ} (pop : Population n)
    (he : ∀ i, 0 ≤ pop.eccentricity i ∧ pop.eccentricity i < 1)
    (mass : Fin n → ℝ) (time tol : ℝ)
    (hp : ∀ i, 0 ≤ pop.period i) (hq : ∀ i, 0 ≤ pop.massRatio i)
    (hm : ∀ i, 0 ≤ mass i) :
    ∀ i, vlosRaw pop time tol i ^ 2 ≤ vtotsq pop time tol i ∧
      0 ≤ vperpRaw pop time tol i ∧ 0 ≤ vperpArr pop mass time tol i := by
  intro i
  have key : vlosRaw pop time tol i ^ 2 ≤ vtotsq pop time tol i := by
    simp only [vlosRaw, vtotsq]
    set a := thdot pop time tol i * seperation pop time tol i with ha
    set b := rdot pop time tol i with hb
    set x := pop.theta i - theta_orb pop time tol i with hx
    have h1 : Real.sin x ^ 2 + Real.cos x ^ 2 = 1 := Real.sin_sq_add_cos_sq x
    have h2 : Real.sin (pop.inclination i) ^ 2 ≤ 1 := Real.sin_sq_le_one _
    nlinarith [sq_nonneg (a * Real.cos x - b * Real.sin x),
      sq_nonneg (a * Real.sin x + b * Real.cos x), sq_nonneg a, sq_nonneg b]
  refine ⟨key, Real.sqrt_nonneg _, ?_⟩
  have hscale : 0 ≤ velScale pop mass i := by
    have hsm : 0 ≤ semi_major pop mass i := by
      have : 0 ≤ pop.period i ^ 2 * mass i * (1 + pop.massRatio i) := by
        have := hq i
        have := hm i
        positivity
      exact Real.rpow_nonneg this _
    have hden : 0 ≤ pop.period i * (1 + 1 / pop.massRatio i) := by
      have h1 : 0 ≤ 1 / pop.massRatio i := div_nonneg zero_le_one (hq i)
      have := hp i
      nlinarith
    have : (0:ℝ) ≤ 4.74057581 := by norm_num
    have := div_nonneg hsm hden
    simp only [velScale]
    positivity
  exact mul_nonneg (Real.sqrt_nonneg _) hscale

/-- Witness for C9 on a concrete circular-orbit population, at index 0. -/
theorem vperp_sqrt_arg_nonneg_witness :
    vlosRaw (mkPopulation 1 (fun _ => 0) (fun _ => 0) (fun _ => 0)) 0 1 0 ^ 2 ≤
        vtotsq (mkPopulation 1 (fun _ => 0) (fun _ => 0) (fun _ => 0)) 0 1 0 ∧
      0 ≤ vperpRaw (mkPopulation 1 (fun _ => 0) (fun _ => 0) (fun _ => 0)) 0 1 0 ∧
      0 ≤ vperpArr (mkPopulation 1 (fun _ => 0) (fun _ => 0) (fun _ => 0)) (fun _ => 1) 0 1 0 :=
  vperp_sqrt_arg_nonneg (mkPopulation 1 (fun _ => 0) (fun _ => 0) (fun _ => 0))
    (fun _ => by norm_num [mkPopulation]) (fun _ => 1) 0 1
    (fun _ => by norm_num [mkPopulation]) (fun _ => by norm_num [mkPopulation])
    (fun _ => by norm_num) 0

/-- **C2** counterexample: with preset `Raghavan10` and `pmax = 1` year, the
draw `z = b = (10 - 5.03)/2.28` lies inside the truncation interval actually
used by the code, yet the resulting period is `10^10/365.25` years, far above
`pmax`; so the truncation is not `[-1, log10(pmax*365.25)]` and drawn periods
are not bounded by `pmax`. -/
theorem draw_period_lognormal_pmax_cex :
    truncA 5.03 2.28 ≤ truncB 5.03 2.28 ∧
    periodPmaxCex = (10 : ℝ) ^ (10 : ℝ) / 365.25 ∧ 1 < periodPmaxCex := by
  have hdraw : draw_period popBase (.name "Raghavan10") (some 1)
      (fun _ => truncB 5.03 2.28) (fun _ => 0) =
      .ok { popBase with period := fun _ =>
        (10 : ℝ) ^ (truncB 5.03 2.28 * 2.28 + 5.03) / 365.25 } := by
    simp [draw_period]
  have hexp : truncB 5.03 2.28 * 2.28 + 5.03 = (10 : ℝ) := by
    simp only [truncB]
    norm_num
  have hval : periodPmaxCex = (10 : ℝ) ^ (10 : ℝ) / 365.25 := by
    simp only [periodPmaxCex, hdraw, hexp]
  have hbig : (1 : ℝ) < (10 : ℝ) ^ (10 : ℝ) / 365.25 := by
    have h10 : (10 : ℝ) ^ (10 : ℝ) = (10 : ℝ) ^ (10 : ℕ) := by
      rw [← Real.rpow_natCast (10 : ℝ) 10]
      norm_num
    rw [h10]
    norm_num
  refine ⟨?_, hval, hval ▸ hbig⟩
  simp only [truncA, truncB]
  norm_num

/-- **C2** amended: for the log-normal presets `Raghavan10` and `DM91` the
`pmax` argument is ignored; the truncation interval is always
`[-1, 10]` in log10(days): the drawn periods are `10^(z*sigma+mu)/365.25`
and lie in `[10^(-1)/365.25, 10^10/365.25]` for every in-support draw
`z ∈ [a, b]`, regardless of `pmax`. -/
theorem draw_period_lognormal_amended {n : ℕ} (pop : Population n)
    (pmax1 pmax2 : Option ℝ) (z var : Fin n → ℝ) (s : String) (mu sigma : ℝ)
    (hs : (s = "Raghavan10" ∧ mu = 5.03 ∧ sigma = 2.28) ∨
      (s = "DM91" ∧ mu = 4.8 ∧ sigma = 2.3)) :
    draw_period pop (.name s) pmax1 z var = draw_period pop (.name s) pmax2 z var ∧
    draw_period pop (.name s) pmax1 z var =
      .ok { pop with period := fun i => (10 : ℝ) ^ (z i * sigma + mu) / 365.25 } ∧
    (∀ i, truncA mu sigma ≤ z i → z i ≤ truncB mu sigma →
      (10 : ℝ) ^ (-1 : ℝ) / 365.25 ≤ (10 : ℝ) ^ (z i * sigma + mu) / 365.25 ∧
      (10 : ℝ) ^ (z i * sigma + mu) / 365.25 ≤ (10 : ℝ) ^ (10 : ℝ) / 365.25) := by
  have hσ : (0 : ℝ) < sigma := by
    rcases hs with ⟨_, _, rfl⟩ | ⟨_, _, rfl⟩ <;> norm_num
  have hexp : ∀ i, truncA mu sigma ≤ z i → z i ≤ truncB mu sigma →
      -1 ≤ z i * sigma + mu ∧ z i * sigma + mu ≤ 10 := by
    intro i hlo hhi
    constructor
    · have := (div_le_iff hσ).mp hlo
      simp only [truncA] at this ⊢
      nlinarith [this]
    · have := (le_div_iff hσ).mp hhi
      simp only [truncB] at this ⊢
      nlinarith [this]
  have hmain : draw_period pop (.name s) pmax1 z var =
      .ok { pop with period := fun i => (10 : ℝ) ^ (z i * sigma + mu) / 365.25 } ∧
      draw_period pop (.name s) pmax2 z var =
      .ok { pop with period := fun i => (10 : ℝ) ^ (z i * sigma + mu) / 365.25 } := by
    rcases hs with ⟨rfl, rfl, rfl⟩ | ⟨rfl, rfl, rfl⟩
    · constructor <;> simp [draw_period]
    · constructor <;> simp [draw_period]
  refine ⟨hmain.1.trans hmain.2.symm, hmain.1, fun i hlo hhi => ?_⟩
  obtain ⟨hl, hr⟩ := hexp i hlo hhi
  constructor
  · exact (div_le_div_right (by norm_num)).mpr
      (Real.rpow_le_rpow_of_exponent_le (by norm_num) hl)
  · exact (div_le_div_right (by norm_num)).mpr
      (Real.rpow_le_rpow_of_exponent_le (by norm_num) hr)

/-- Witness for the amended C2 at the in-support draw `z = 0`, comparing
`pmax = 1` year against no `pmax`. -/
theorem draw_period_lognormal_amended_witness :
    (draw_period popBase (.name "Raghavan10") (some 1) (fun _ => 0) (fun _ => 0) =
      draw_period popBase (.name "Raghavan10") none (fun _ => 0) (fun _ => 0)) ∧
    draw_period popBase (.name "Raghavan10") (some 1) (fun _ => 0) (fun _ => 0) =
      .ok { popBase with period := fun _ => (10 : ℝ) ^ ((0 : ℝ) * 2.28 + 5.03) / 365.25 } ∧
    ((10 : ℝ) ^ (-1 : ℝ) / 365.25 ≤ (10 : ℝ) ^ ((0 : ℝ) * 2.28 + 5.03) / 365.25 ∧
      (10 : ℝ) ^ ((0 : ℝ) * 2.28 + 5.03) / 365.25 ≤ (10 : ℝ) ^ (10 : ℝ) / 365.25) := by
  obtain ⟨h1, h2, h3⟩ := draw_period_lognormal_amended popBase (some 1) none
    (fun _ => 0) (fun _ => 0) "Raghavan10" 5.03 2.28 (Or.inl ⟨rfl, rfl, rfl⟩)
  exact ⟨h1, h2, h3 0 (by norm_num [truncA]) (by norm_num [truncB])⟩

theorem iterNewton_shift {n : ℕ} (e M : Fin n → ℝ) (E : Fin n → ℝ) :
    ∀ k, iterNewton e M k (stepVec e M E) = iterNewton e M (k + 1) E := by
  intro k
  induction k with
  | zero => rfl
  | succ k ih =>
      show stepVec e M (iterNewton e M k (stepVec e M E)) = _
      rw [ih]
      rfl

theorem contAt_shift {n : ℕ} (e M : Fin n → ℝ) (tol : ℝ) (E old : Fin n → ℝ) (j : ℕ) :
    contAt e M tol (stepVec e M E) E j ↔ contAt e M tol E old (j + 1) := by
  cases j with
  | zero => exact Iff.rfl
  | succ j =>
      show (∃ i, tol < |iterNewton e M (j + 1) (stepVec e M E) i -
          iterNewton e M j (stepVec e M E) i|) ↔ _
      rw [iterNewton_shift, iterNewton_shift]
      exact Iff.rfl

/-- Characterization of the bounded Newton loop: it returns the `k`-th
iterate where `k` is at most the fuel, every earlier check saw a change above
tolerance, and if the fuel was not exhausted the final check saw all changes
at or below tolerance. -/
theorem keplerLoop_char {n : ℕ} (e M : Fin n → ℝ) (tol : ℝ) :
    ∀ (fuel : ℕ) (E old : Fin n → ℝ),
      ∃ k ≤ fuel, keplerLoop e M tol fuel E old = iterNewton e M k E ∧
        (∀ j < k, contAt e M tol E old j) ∧ (k < fuel → ¬ contAt e M tol E old k) := by
  intro fuel
  induction fuel with
  | zero =>
      intro E old
      exact ⟨0, le_refl 0, rfl, fun j hj => absurd hj (Nat.not_lt_zero j),
        fun h => absurd h (lt_irrefl 0)⟩
  | succ fuel ih =>
      intro E old
      by_cases h0 : ∃ i, tol < |E i - old i|
      · obtain ⟨k, hk, heq, hall, hstop⟩ := ih (stepVec e M E) E
        refine ⟨k + 1, Nat.succ_le_succ hk, ?_, ?_, ?_⟩
        · show keplerLoop e M tol (fuel + 1) E old = _
          rw [show keplerLoop e M tol (fuel + 1) E old =
            keplerLoop e M tol fuel (fun i => newtonStep (e i) (M i) (E i)) E from
            if_pos h0]
          rw [show (fun i => newtonStep (e i) (M i) (E i)) = stepVec e M E from rfl]
          rw [heq, iterNewton_shift]
        · intro j hj
          cases j with
          | zero => exact h0
          | succ j =>
              exact (contAt_shift e M tol E old j).mp (hall j (Nat.lt_of_succ_lt_succ hj))
        · intro hlt
          have := hstop (Nat.lt_of_succ_lt_succ hlt)
          exact fun hc => this ((contAt_shift e M tol E old k).mpr hc)
      · refine ⟨0, Nat.zero_le _, ?_, fun j hj => absurd hj (Nat.not_lt_zero j),
          fun _ => h0⟩
        exact if_neg h0

/-- **C3**: inside `velocity` the Kepler step initializes `E₀` to the mean
anomaly, applies the elementwise Newton update, stops as soon as the maximum
absolute change over all elements is at most the tolerance or after at most
20 iterations, and always terminates, returning the last iterate (the
equality below is a total function: no failure is possible). -/
theorem kepler_solver_characterization {n : ℕ} (pop : Population n) (time tol : ℝ)
    (he : ∀ i, 0 ≤ pop.eccentricity i ∧ pop.eccentricity i < 1) :
    iterNewton pop.eccentricity (mean_anomaly pop time) 0 (mean_anomaly pop time) =
      mean_anomaly pop time ∧
    (∀ k E i, iterNewton pop.eccentricity (mean_anomaly pop time) (k + 1) E i =
      newtonStep (pop.eccentricity i) (mean_anomaly pop time i)
        (iterNewton pop.eccentricity (mean_anomaly pop time) k E i)) ∧
    (∀ E M' : Fin n → ℝ, ∀ i, stepVec pop.eccentricity M' E i =
      E i - (E i - pop.eccentricity i * Real.sin (E i) - M' i) /
        (1 - pop.eccentricity i * Real.cos (E i))) ∧
    ∃ k ≤ 20, ecc_anomaly pop time tol =
        iterNewton pop.eccentricity (mean_anomaly pop time) k (mean_anomaly pop time) ∧
      (∀ j < k, contAt pop.eccentricity (mean_anomaly pop time) tol
        (mean_anomaly pop time) (fun _ => -1) j) ∧
      (k < 20 → ¬ contAt pop.eccentricity (mean_anomaly pop time) tol
        (mean_anomaly pop time) (fun _ => -1) k) := by
  refine ⟨rfl, fun k E i => rfl, fun E M' i => rfl, ?_⟩
  exact keplerLoop_char pop.eccentricity (mean_anomaly pop time) tol 20
    (mean_anomaly pop time) (fun _ => -1)

/-- Witness for C3 on a concrete circular-orbit population. -/
theorem kepler_solver_characterization_witness :
    iterNewton popBase.eccentricity (mean_anomaly popBase 0) 0 (mean_anomaly popBase 0) =
      mean_anomaly popBase 0 ∧
    (∀ k E i, iterNewton popBase.eccentricity (mean_anomaly popBase 0) (k + 1) E i =
      newtonStep (popBase.eccentricity i) (mean_anomaly popBase 0 i)
        (iterNewton popBase.eccentricity (mean_anomaly popBase 0) k E i)) ∧
    (∀ E M' : Fin 1 → ℝ, ∀ i, stepVec popBase.eccentricity M' E i =
      E i - (E i - popBase.eccentricity i * Real.sin (E i) - M' i) /
        (1 - popBase.eccentricity i * Real.cos (E i))) ∧
    ∃ k ≤ 20, ecc_anomaly popBase 0 anomalyOffsetDefault =
        iterNewton popBase.eccentricity (mean_anomaly popBase 0) k (mean_anomaly popBase 0) ∧
      (∀ j < k, contAt popBase.eccentricity (mean_anomaly popBase 0) anomalyOffsetDefault
        (mean_anomaly popBase 0) (fun _ => -1) j) ∧
      (k < 20 → ¬ contAt popBase.eccentricity (mean_anomaly popBase 0) anomalyOffsetDefault
        (mean_anomaly popBase 0) (fun _ => -1) k) :=
  kepler_solver_characterization popBase 0 anomalyOffsetDefault
    (fun i => by norm_num [popBase, mkPopulation])

/-- For a circular population (`e = 0`) the Newton loop started at the mean
anomaly is stationary: whatever the fuel and previous state, it returns the
mean anomaly. -/
theorem keplerLoop_ecc_zero {n : ℕ} (e M : Fin n → ℝ) (he : ∀ i, e i = 0) (tol : ℝ) :
    ∀ (fuel : ℕ) (old : Fin n → ℝ), keplerLoop e M tol fuel M old = M := by
  intro fuel
  induction fuel with
  | zero => intro old; rfl
  | succ fuel ih =>
      intro old
      have hstep : (fun i => newtonStep (e i) (M i) (M i)) = M := by
        funext i
        simp [newtonStep, he i]
      by_cases h : ∃ i, tol < |M i - old i|
      · show keplerLoop e M tol (fuel + 1) M old = M
        rw [show keplerLoop e M tol (fuel + 1) M old =
          keplerLoop e M tol fuel (fun i => newtonStep (e i) (M i) (M i)) M from if_pos h]
        rw [hstep]
        exact ih M
      · exact if_neg h

theorem mean_anomaly_popOne : mean_anomaly popOne 0 = fun _ => π / 2 := by
  funext i
  simp only [mean_anomaly, popOne]
  ring

theorem ecc_anomaly_popOne (tol : ℝ) : ecc_anomaly popOne 0 tol = fun _ => π / 2 := by
  unfold ecc_anomaly
  rw [mean_anomaly_popOne]
  exact keplerLoop_ecc_zero _ _ (fun i => rfl) tol 20 _

theorem theta_orb_popOne (tol : ℝ) (i : Fin 1) : theta_orb popOne 0 tol i = π / 2 := by
  have he : popOne.eccentricity i = 0 := rfl
  simp only [theta_orb, ecc_anomaly_popOne, he]
  rw [show (1 + (0 : ℝ)) / (1 - 0) = 1 by norm_num, Real.sqrt_one,
    show π / 2 / 2 = π / 4 by ring, Real.tan_pi_div_four, one_mul, Real.arctan_one]
  ring

theorem seperation_popOne (tol : ℝ) (i : Fin 1) : seperation popOne 0 tol i = 1 := by
  have he : popOne.eccentricity i = 0 := rfl
  simp only [seperation, he]
  norm_num

theorem thdot_popOne (tol : ℝ) (i : Fin 1) : thdot popOne 0 tol i = 2 * π := by
  have he : popOne.eccentricity i = 0 := rfl
  simp only [thdot, seperation_popOne, he]
  norm_num

theorem rdot_popOne (tol : ℝ) (i : Fin 1) : rdot popOne 0 tol i = 0 := by
  simp [rdot, popOne]

theorem vlosRaw_popOne (tol : ℝ) (i : Fin 1) : vlosRaw popOne 0 tol i = 2 * π := by
  simp only [vlosRaw, thdot_popOne, seperation_popOne, rdot_popOne, theta_orb_popOne]
  rw [show popOne.theta i - π / 2 = π / 2 by simp [popOne]; ring]
  rw [show popOne.inclination i = π / 2 from rfl]
  rw [Real.sin_pi_div_two]
  ring

theorem velScale_popOne (i : Fin 1) :
    velScale popOne (fun _ => 1) i = (2 : ℝ) ^ ((1 : ℝ) / 3) / 2 * 4.74057581 := by
  simp only [velScale, semi_major, popOne]
  norm_num

theorem vlosArr_popOne (tol : ℝ) (i : Fin 1) :
    vlosArr popOne (fun _ => 1) 0 tol i = π * (2 : ℝ) ^ ((1 : ℝ) / 3) * 4.74057581 := by
  simp only [vlosArr, vlosRaw_popOne, velScale_popOne]
  ring

theorem vlosArr_popOne_pos (tol : ℝ) (i : Fin 1) :
    0 < vlosArr popOne (fun _ => 1) 0 tol i := by
  rw [vlosArr_popOne]
  have h1 : (0 : ℝ) < π := Real.pi_pos
  have h2 : (0 : ℝ) < (2 : ℝ) ^ ((1 : ℝ) / 3) := Real.rpow_pos_of_pos (by norm_num) _
  nlinarith

/-- `8^(1/3) = 2` for the real power used by `multi_epoch`. -/
theorem rpow_eight_third : (8 : ℝ) ^ ((1 : ℝ) / 3) = 2 := by
  rw [show (8 : ℝ) = 2 ^ (3 : ℕ) by norm_num, ← Real.rpow_natCast 2 3,
    ← Real.rpow_mul (by norm_num : (0 : ℝ) ≤ 2)]
  norm_num

/-- **C1** counterexample: in `multi_epoch`, a star with exactly one
observation (epoch 0, mass 8) records the population offsets
`vbin[epochs[0]]` unscaled, not `vbin[epochs[0]] * mass**(1/3)` as the claim
states, on the concrete one-binary circular population `popOne` whose offset
at epoch 0 is nonzero. -/
theorem multi_epoch_single_obs_unscaled_cex :
    (perStar 1 (fun d => vlosArr popOne (fun _ => 1) d anomalyOffsetDefault) 8
        [((0 : ℝ), (0 : ℝ), (1 : ℝ))] (fun _ _ => 0) (fun _ _ => 1) 1e-4).rvBinoffset ≠
      List.ofFn (fun b => vlosArr popOne (fun _ => 1) 0 anomalyOffsetDefault b *
        (8 : ℝ) ^ ((1 : ℝ) / 3)) := by
  have hofn : ∀ g : Fin 1 → ℝ, List.ofFn g = [g 0] := by
    intro g
    simp [List.ofFn_succ]
  have hL : (perStar 1 (fun d => vlosArr popOne (fun _ => 1) d anomalyOffsetDefault) 8
      [((0 : ℝ), (0 : ℝ), (1 : ℝ))] (fun _ _ => 0) (fun _ _ => 1) 1e-4).rvBinoffset =
      [vlosArr popOne (fun _ => 1) 0 anomalyOffsetDefault 0] := by
    show List.ofFn (fun b => vlosArr popOne (fun _ => 1) 0 anomalyOffsetDefault b) = _
    rw [hofn]
  rw [hL, rpow_eight_third, hofn]
  intro hcontra
  have h : vlosArr popOne (fun _ => 1) 0 anomalyOffsetDefault 0 =
      vlosArr popOne (fun _ => 1) 0 anomalyOffsetDefault 0 * 2 := by
    simpa using hcontra
  have hpos := vlosArr_popOne_pos anomalyOffsetDefault 0
  nlinarith

/-- **C1** amended: in the multi-epoch synthetic replay, a star with exactly
one observation records the population's per-binary offset at that epoch
unscaled (no `mass**(1/3)` factor and no noise); for a star with several
observations each synthetic binary's offset at each epoch equals the
population offset at that epoch scaled by `mass**(1/3)` plus Gaussian noise
with that epoch's uncertainty. -/
theorem multi_epoch_offsets_amended {nb : ℕ} (vbin : ℝ → Fin nb → ℝ) (pmass : ℝ)
    (noise : ℕ → Fin nb → ℝ) (chisqprob : ℝ → ℕ → ℝ) (pfalse : ℝ) (date v s : ℝ) :
    (perStar nb vbin pmass [(date, v, s)] noise chisqprob pfalse).rvBinoffset =
      List.ofFn (fun b => vbin date b) ∧
    (∀ (obs : List (ℝ × ℝ × ℝ)) (b : Fin nb) (ix : Fin obs.length),
      rvOffsetPerEpoch vbin pmass obs noise b ix =
        vbin (obs.get ix).1 b * pmass ^ ((1 : ℝ) / 3) + noise ix b * (obs.get ix).2.2) :=
  ⟨rfl, fun obs b ix => rfl⟩

theorem starResults_length (nb : ℕ) (vbin : ℝ → Fin nb → ℝ) (chisqprob : ℝ → ℕ → ℝ)
    (pfalse : ℝ) (noise : ℕ → ℕ → Fin nb → ℝ) :
    ∀ (stars : List (List (ℝ × ℝ × ℝ) × ℝ)) (ix : ℕ),
      (starResults nb vbin chisqprob pfalse noise ix stars).length = stars.length := by
  intro stars
  induction stars with
  | nil => intro ix; rfl
  | cons st rest ih =>
      intro ix
      cases st with
      | mk obs pm => simp [starResults, ih]

theorem length_filter_bool_split {α : Type} (p : α → Bool) :
    ∀ l : List α, (l.filter (fun a => !(p a))).length + (l.filter p).length = l.length := by
  intro l
  induction l with
  | nil => rfl
  | cons a l ih =>
      cases h : p a <;> simp [List.filter_cons, h] <;> omega

theorem isSingle_getD_aux (nb : ℕ) (vbin : ℝ → Fin nb → ℝ) (chisqprob : ℝ → ℕ → ℝ)
    (pfalse : ℝ) (noise : ℕ → ℕ → Fin nb → ℝ) :
    ∀ (stars : List (List (ℝ × ℝ × ℝ) × ℝ)) (ix i : ℕ), i < stars.length →
      (stars.getD i ([], 0)).1.length = 1 →
      ((starResults nb vbin chisqprob pfalse noise ix stars).map
        (fun r => !r.rvvariable)).getD i false = true := by
  intro stars
  induction stars with
  | nil =>
      intro ix i hi
      exact absurd hi (by simp)
  | cons st rest ih =>
      intro ix i hi hobs
      cases st with
      | mk obs pm =>
        cases i with
        | zero =>
            simp only [List.getD_cons_zero] at hobs
            obtain ⟨o, rfl⟩ := List.length_eq_one.mp hobs
            rfl
        | succ i =>
            simp only [starResults, List.map_cons, List.getD_cons_succ] at *
            exact ih (ix + 1) i (by simpa using hi) hobs

/-- **C7**: in `multi_epoch`, every star with exactly one observation gets
detection probability `0` and is classified single (never variable); the
`is_single` flag list has one boolean per input star, and the stars recorded
as single plus those recorded as variable partition the input stars. -/
theorem multi_epoch_classification_invariants (nb : ℕ) (vbin : ℝ → Fin nb → ℝ)
    (chisqprob : ℝ → ℕ → ℝ) (pfalse : ℝ) (noise : ℕ → ℕ → Fin nb → ℝ)
    (stars : List (List (ℝ × ℝ × ℝ) × ℝ)) :
    (isSingleList nb vbin chisqprob pfalse noise stars).length = stars.length ∧
    (pdetSingleList nb vbin chisqprob pfalse noise stars).length +
      (pdetRvvarList nb vbin chisqprob pfalse noise stars).length = stars.length ∧
    (∀ (obs : List (ℝ × ℝ × ℝ)) (pm : ℝ) (ns : ℕ → Fin nb → ℝ), obs.length = 1 →
      (perStar nb vbin pm obs ns chisqprob pfalse).pdet = 0 ∧
      (perStar nb vbin pm obs ns chisqprob pfalse).rvvariable = false) ∧
    (∀ i : ℕ, i < stars.length → (stars.getD i ([], 0)).1.length = 1 →
      (isSingleList nb vbin chisqprob pfalse noise stars).getD i false = true) := by
  refine ⟨?_, ?_, ?_, ?_⟩
  · simp [isSingleList, starResults_length]
  · have hsplit := length_filter_bool_split (fun r : StarResult => r.rvvariable)
      (starResults nb vbin chisqprob pfalse noise 0 stars)
    simp only [pdetSingleList, pdetRvvarList, singlesOf, variablesOf, List.length_map]
    rw [← starResults_length nb vbin chisqprob pfalse noise stars 0]
    exact hsplit
  · intro obs pm ns hlen
    obtain ⟨o, rfl⟩ := List.length_eq_one.mp hlen
    exact ⟨rfl, rfl⟩
  · exact isSingle_getD_aux nb vbin chisqprob pfalse noise stars 0

/-- Witness for C7 on a one-star single-observation input. -/
theorem multi_epoch_classification_invariants_witness :
    (isSingleList 1 (fun _ _ => 0) (fun _ _ => 1) 1e-4 (fun _ _ _ => 0) starsW).length =
      starsW.length ∧
    (pdetSingleList 1 (fun _ _ => 0) (fun _ _ => 1) 1e-4 (fun _ _ _ => 0) starsW).length +
      (pdetRvvarList 1 (fun _ _ => 0) (fun _ _ => 1) 1e-4 (fun _ _ _ => 0) starsW).length =
      starsW.length ∧
    ((perStar 1 (fun _ _ => 0) 2 [((0 : ℝ), (0 : ℝ), (1 : ℝ))] (fun _ _ => 0)
        (fun _ _ => 1) 1e-4).pdet = 0 ∧
      (perStar 1 (fun _ _ => 0) 2 [((0 : ℝ), (0 : ℝ), (1 : ℝ))] (fun _ _ => 0)
        (fun _ _ => 1) 1e-4).rvvariable = false) ∧
    (isSingleList 1 (fun _ _ => 0) (fun _ _ => 1) 1e-4 (fun _ _ _ => 0) starsW).getD 0 false =
      true := by
  obtain ⟨h1, h2, h3, h4⟩ := multi_epoch_classification_invariants 1 (fun _ _ => 0)
    (fun _ _ => 1) 1e-4 (fun _ _ _ => 0) starsW
  exact ⟨h1, h2, h3 [((0 : ℝ), (0 : ℝ), (1 : ℝ))] 2 (fun _ _ => 0) rfl,
    h4 0 (by norm_num [starsW]) (by norm_num [starsW])⟩

theorem mkStars_mass_mem :
    ∀ (vs ss : List (List ℝ)) (ms : List ℝ) (ds : List (List ℝ))
      (stars : List (List (ℝ × ℝ × ℝ) × ℝ)),
      mkStars vs ss ms ds = some stars → ∀ st ∈ stars, st.2 ∈ ms := by
  intro vs
  induction vs with
  | nil =>
      intro ss ms ds stars h st hst
      rcases ss with _ | ⟨s, sr⟩ <;> rcases ms with _ | ⟨m, mr⟩ <;>
        rcases ds with _ | ⟨d, dr⟩ <;>
        · simp only [mkStars, Option.some.injEq] at h
          subst h
          simp at hst
  | cons v vr ih =>
      intro ss ms ds stars h st hst
      rcases ss with _ | ⟨s, sr⟩
      · simp only [mkStars, Option.some.injEq] at h
        subst h
        simp at hst
      rcases ms with _ | ⟨m, mr⟩
      · simp only [mkStars, Option.some.injEq] at h
        subst h
        simp at hst
      rcases ds with _ | ⟨d, dr⟩
      · simp only [mkStars, Option.some.injEq] at h
        subst h
        simp at hst
      simp only [mkStars] at h
      rcases hb : broadcast3 d v s with _ | obs <;> rw [hb] at h
      · simp at h
      rcases hr : mkStars vr sr mr dr with _ | rest <;> rw [hr] at h
      · simp at h
      simp only [Option.some.injEq] at h
      subst h
      rcases List.mem_cons.mp hst with hst | hst
      · rw [hst]
        exact List.mem_cons_self m mr
      · exact List.mem_cons_of_mem m (ih sr mr dr rest hr st hst)

/-- **C10**: `multi_epoch` replicates a scalar mass to one entry per star
before the length check, so a scalar mass never triggers the
mismatched-length failure and every star is paired with that same mass; a
non-scalar `sigvel`, `mass` or `dates` list whose length differs from the
velocity list fails immediately with the corresponding error. -/
theorem multi_epoch_scalar_mass_ok {n : ℕ} (pop : Population n)
    (vels sigvels : List (List ℝ)) (dates : List (List ℝ)) (m : ℝ) (ml : List ℝ)
    (chisqprob : ℝ → ℕ → ℝ) (noise : ℕ → ℕ → Fin n → ℝ)
    (pfalse lmin lmax lstep tol : ℝ) :
    (massListME (.scalar m) vels.length).length = vels.length ∧
    multi_epoch pop vels sigvels (.scalar m) dates chisqprob noise pfalse lmin lmax lstep tol ≠
      .error (.mismatchedInputLength "mass") ∧
    (∀ stars, mkStars vels sigvels (massListME (.scalar m) vels.length) dates = some stars →
      ∀ st ∈ stars, st.2 = m) ∧
    (sigvels.length ≠ vels.length →
      multi_epoch pop vels sigvels (.array ml) dates chisqprob noise pfalse lmin lmax lstep tol =
        .error (.mismatchedInputLength "sigvel")) ∧
    (sigvels.length = vels.length → ml.length ≠ vels.length →
      multi_epoch pop vels sigvels (.array ml) dates chisqprob noise pfalse lmin lmax lstep tol =
        .error (.mismatchedInputLength "mass")) ∧
    (sigvels.length = vels.length → ml.length = vels.length → dates.length ≠ vels.length →
      multi_epoch pop vels sigvels (.array ml) dates chisqprob noise pfalse lmin lmax lstep tol =
        .error (.mismatchedInputLength "dates")) := by
  have hmlen : (massListME (.scalar m) vels.length).length = vels.length := by
    simp [massListME]
  refine ⟨hmlen, ?_, ?_, ?_, ?_, ?_⟩
  · intro hcontra
    simp only [multi_epoch] at hcontra
    split_ifs at hcontra with h1 h2 h3
    · simp only [Except.error.injEq, VelbinError.mismatchedInputLength.injEq] at hcontra
      exact absurd hcontra (by decide)
    · exact h2 hmlen
    · simp only [Except.error.injEq, VelbinError.mismatchedInputLength.injEq] at hcontra
      exact absurd hcontra (by decide)
    · rcases hmk : mkStars vels sigvels (massListME (.scalar m) vels.length) dates
        with _ | stars <;> rw [hmk] at hcontra
      · simp only [Except.error.injEq] at hcontra
        exact absurd hcontra (by decide)
      · simp at hcontra
  · intro stars hmk st hst
    have := mkStars_mass_mem vels sigvels (massListME (.scalar m) vels.length) dates
      stars hmk st hst
    simp only [massListME] at this
    exact List.eq_of_mem_replicate this
  · intro h1
    simp only [multi_epoch]
    rw [if_pos h1]
  · intro h1 h2
    simp only [multi_epoch]
    rw [if_neg (not_not_intro h1),
      if_pos (show (massListME (.array ml) vels.length).length ≠ vels.length from h2)]
  · intro h1 h2 h3
    simp only [multi_epoch]
    rw [if_neg (not_not_intro h1),
      if_neg (not_not_intro
        (show (massListME (.array ml) vels.length).length = vels.length from h2)),
      if_pos h3]

/-- Witness for C10 on concrete matched and mismatched inputs. -/
theorem multi_epoch_scalar_mass_ok_witness :
    multi_epoch popBase [[0]] [[1]] (.scalar 3) [[0]] (fun _ _ => 1) (fun _ _ _ => 0)
        1e-4 (-3) 4 0.02 1e-3 ≠ .error (.mismatchedInputLength "mass") ∧
    (∀ st ∈ [(([((0 : ℝ), (0 : ℝ), (1 : ℝ))] : List (ℝ × ℝ × ℝ)), (3 : ℝ))], st.2 = 3) ∧
    multi_epoch popBase [[0]] [] (.array []) [[0]] (fun _ _ => 1) (fun _ _ _ => 0)
        1e-4 (-3) 4 0.02 1e-3 = .error (.mismatchedInputLength "sigvel") ∧
    multi_epoch popBase [[0]] [[1]] (.array []) [[0]] (fun _ _ => 1) (fun _ _ _ => 0)
        1e-4 (-3) 4 0.02 1e-3 = .error (.mismatchedInputLength "mass") ∧
    multi_epoch popBase [[0]] [[1]] (.array [1]) [] (fun _ _ => 1) (fun _ _ _ => 0)
        1e-4 (-3) 4 0.02 1e-3 = .error (.mismatchedInputLength "dates") := by
  refine ⟨?_, ?_, ?_, ?_, ?_⟩
  · exact (multi_epoch_scalar_mass_ok popBase [[0]] [[1]] [[0]] 3 []
      (fun _ _ => 1) (fun _ _ _ => 0) 1e-4 (-3) 4 0.02 1e-3).2.1
  · exact (multi_epoch_scalar_mass_ok popBase [[0]] [[1]] [[0]] 3 []
      (fun _ _ => 1) (fun _ _ _ => 0) 1e-4 (-3) 4 0.02 1e-3).2.2.1 _ rfl
  · exact (multi_epoch_scalar_mass_ok popBase [[0]] [] [[0]] 3 []
      (fun _ _ => 1) (fun _ _ _ => 0) 1e-4 (-3) 4 0.02 1e-3).2.2.2.1 (by decide)
  · exact (multi_epoch_scalar_mass_ok popBase [[0]] [[1]] [[0]] 3 []
      (fun _ _ => 1) (fun _ _ _ => 0) 1e-4 (-3) 4 0.02 1e-3).2.2.2.2.1 rfl (by decide)
  · exact (multi_epoch_scalar_mass_ok popBase [[0]] [[1]] [] 3 [1]
      (fun _ _ => 1) (fun _ _ _ => 0) 1e-4 (-3) 4 0.02 1e-3).2.2.2.2.2 rfl rfl (by decide)

/-- **C8**: `fake_dataset` with binary fraction 0 returns systemic velocity
plus measurement noise with the orbital offset exactly 0 for every star and
epoch; with uncertainty 0, dispersion 0 and binary fraction 1 it returns
exactly the projected line-of-sight offsets of the first `nvel` population
entries at each requested epoch. -/
theorem fake_dataset_fbin_extremes {n : ℕ} (pop : Population n) (nvel : ℕ) (h : nvel ≤ n)
    (dates : List ℝ) (randU randNsys : Fin nvel → ℝ) (randNmeas : ℕ → Fin nvel → ℝ)
    (tol : ℝ) (hU : ∀ s, 0 ≤ randU s ∧ randU s < 1) :
    (∀ (vdisp : ℝ) (sigvel mass : ScalarOrArr nvel) (d : Fin dates.length) (s : Fin nvel),
      fakeBinOffset pop nvel h mass dates 0 randU tol d s = 0 ∧
      (fake_dataset pop nvel h vdisp 0 sigvel mass dates randU randNsys randNmeas tol).1 d s =
        randNsys s * vdisp + randNmeas d s * soaAt sigvel s) ∧
    (∀ (mass : ScalarOrArr nvel) (d : Fin dates.length) (s : Fin nvel),
      (fake_dataset pop nvel h 0 1 (.scalar 0) mass dates randU randNsys randNmeas tol).1 d s =
        vlosArr (popTake pop nvel h) (soaAt mass) (dates.get d) tol s) := by
  constructor
  · intro vdisp sigvel mass d s
    have hb : binIndex nvel 0 randU s = false := by
      simp only [binIndex]
      exact decide_eq_false (not_lt.mpr (hU s).1)
    have hoff : fakeBinOffset pop nvel h mass dates 0 randU tol d s = 0 := by
      simp [fakeBinOffset, hb]
    refine ⟨hoff, ?_⟩
    show randNsys s * vdisp + fakeBinOffset pop nvel h mass dates 0 randU tol d s
        + randNmeas d s * soaAt sigvel s = _
    rw [hoff]
    ring
  · intro mass d s
    have hb : binIndex nvel 1 randU s = true := by
      simp only [binIndex]
      exact decide_eq_true (hU s).2
    show randNsys s * 0 + fakeBinOffset pop nvel h mass dates 1 randU tol d s
        + randNmeas d s * soaAt (.scalar 0) s = _
    simp only [fakeBinOffset, hb, if_true, soaAt]
    ring

/-- Witness for C8 on the concrete one-binary population. -/
theorem fake_dataset_fbin_extremes_witness :
    (fakeBinOffset popBase 1 (Nat.le_refl 1) (.scalar 1) ([0] : List ℝ) 0 (fun _ => 1 / 2) 1e-3
        ⟨0, by norm_num⟩ 0 = 0 ∧
      (fake_dataset popBase 1 (Nat.le_refl 1) 1 0 (.scalar 1) (.scalar 1) ([0] : List ℝ)
          (fun _ => 1 / 2) (fun _ => 0) (fun _ _ => 0) 1e-3).1 ⟨0, by norm_num⟩ 0 =
        (0 : ℝ) * 1 + (0 : ℝ) * soaAt (ScalarOrArr.scalar 1 : ScalarOrArr 1) 0) ∧
    (fake_dataset popBase 1 (Nat.le_refl 1) 0 1 (.scalar 0) (.scalar 1) ([0] : List ℝ)
        (fun _ => 1 / 2) (fun _ => 0) (fun _ _ => 0) 1e-3).1 ⟨0, by norm_num⟩ 0 =
      vlosArr (popTake popBase 1 (Nat.le_refl 1)) (soaAt (.scalar 1))
        ([(0 : ℝ)].get ⟨0, by norm_num⟩) 1e-3 0 := by
  obtain ⟨h1, h2⟩ := fake_dataset_fbin_extremes popBase 1 (Nat.le_refl 1) ([0] : List ℝ)
    (fun _ => 1 / 2) (fun _ => 0) (fun _ _ => 0) 1e-3 (fun s => by norm_num)
  exact ⟨h1 1 (.scalar 1) (.scalar 1) ⟨0, by norm_num⟩ 0, h2 (.scalar 1) ⟨0, by norm_num⟩ 0⟩

/-! ## Sorted-slice refinement lemmas for the single-epoch bins -/

theorem searchsorted_cons_of_lt {a v : ℝ} (l : List ℝ) (h : a < v) :
    searchsorted (a :: l) v = searchsorted l v + 1 := by
  simp only [searchsorted]
  exact List.countP_cons_of_pos (fun x => decide (x < v)) l (decide_eq_true h)

theorem searchsorted_eq_zero {v : ℝ} {l : List ℝ} (h : ∀ x ∈ l, ¬ x < v) :
    searchsorted l v = 0 := by
  simp only [searchsorted]
  rw [List.countP_eq_zero]
  intro x hx
  simp [h x hx]

theorem slice_searchsorted_eq_filter {vel : List ℝ} (hs : List.Sorted (· ≤ ·) vel)
    {lo hi : ℝ} (hlohi : lo ≤ hi) :
    (vel.drop (searchsorted vel lo)).take (searchsorted vel hi - searchsorted vel lo) =
      vel.filter (fun x => decide (lo ≤ x) && decide (x < hi)) := by
  induction vel with
  | nil => rfl
  | cons a l ih =>
      rw [List.sorted_cons] at hs
      obtain ⟨hal, hl⟩ := hs
      by_cases h1 : a < lo
      · have h2 : a < hi := lt_of_lt_of_le h1 hlohi
        rw [searchsorted_cons_of_lt l h1, searchsorted_cons_of_lt l h2, List.drop_succ_cons,
          show searchsorted l hi + 1 - (searchsorted l lo + 1) =
            searchsorted l hi - searchsorted l lo from by omega,
          ih hl, List.filter_cons_of_neg (by simp [not_le.mpr h1])]
      · by_cases h2 : a < hi
        · have hlo0 : searchsorted (a :: l) lo = 0 := by
            refine searchsorted_eq_zero fun x hx => ?_
            rcases List.mem_cons.mp hx with rfl | hx
            · exact h1
            · exact fun hc => h1 (lt_of_le_of_lt (hal x hx) hc)
          have hlo0l : searchsorted l lo = 0 := by
            refine searchsorted_eq_zero fun x hx hc => ?_
            exact h1 (lt_of_le_of_lt (hal x hx) hc)
          rw [hlo0, List.drop_zero, Nat.sub_zero, searchsorted_cons_of_lt l h2,
            List.take_succ_cons, List.filter_cons_of_pos (by simp [not_lt.mp h1, h2])]
          congr 1
          have := ih hl
          rw [hlo0l, List.drop_zero, Nat.sub_zero] at this
          exact this
        · have hhi0 : searchsorted (a :: l) hi = 0 := by
            refine searchsorted_eq_zero fun x hx => ?_
            rcases List.mem_cons.mp hx with rfl | hx
            · exact h2
            · exact fun hc => h2 (lt_of_le_of_lt (hal x hx) hc)
          rw [hhi0, Nat.zero_sub, List.take_zero]
          symm
          rw [List.filter_eq_nil_iff]
          intro x hx
          have hxhi : ¬ x < hi := by
            rcases List.mem_cons.mp hx with rfl | hx
            · exact h2
            · exact fun hc => h2 (lt_of_le_of_lt (hal x hx) hc)
          simp [hxhi]

theorem drop_searchsorted_eq_filter {vel : List ℝ} (hs : List.Sorted (· ≤ ·) vel) (v : ℝ) :
    vel.drop (searchsorted vel v) = vel.filter (fun x => decide (v ≤ x)) := by
  induction vel with
  | nil => rfl
  | cons a l ih =>
      rw [List.sorted_cons] at hs
      obtain ⟨hal, hl⟩ := hs
      by_cases h1 : a < v
      · rw [searchsorted_cons_of_lt l h1, List.drop_succ_cons, ih hl,
          List.filter_cons_of_neg (by simp [not_le.mpr h1])]
      · have h0 : searchsorted (a :: l) v = 0 := by
          refine searchsorted_eq_zero fun x hx => ?_
          rcases List.mem_cons.mp hx with rfl | hx
          · exact h1
          · exact fun hc => h1 (lt_of_le_of_lt (hal x hx) hc)
        rw [h0, List.drop_zero]
        symm
        rw [List.filter_eq_self]
        intro x hx
        have hvx : v ≤ x := by
          rcases List.mem_cons.mp hx with rfl | hx
          · exact not_lt.mp h1
          · exact le_trans (not_lt.mp h1) (hal x hx)
        simp [hvx]

theorem scanl_getD_sum (l : List ℝ) :
    ∀ (acc : ℝ) (j : ℕ), j ≤ l.length →
      (l.scanl (· + ·) acc).getD j 0 = acc + (l.take j).sum := by
  induction l with
  | nil =>
      intro acc j hj
      have hj0 : j = 0 := Nat.le_zero.mp hj
      subst hj0
      simp [List.scanl_nil]
  | cons a l ih =>
      intro acc j hj
      rw [List.scanl_cons, List.singleton_append]
      cases j with
      | zero => simp
      | succ j =>
          rw [List.getD_cons_succ, ih (acc + a) j (Nat.le_of_succ_le_succ hj),
            List.take_succ_cons, List.sum_cons]
          ring

theorem getD_tail_real (l : List ℝ) (j : ℕ) : l.tail.getD j 0 = l.getD (j + 1) 0 := by
  cases l with
  | nil => rfl
  | cons a t => rw [List.tail_cons, List.getD_cons_succ]

theorem cumsum_getD (l : List ℝ) (j : ℕ) (hj : j < l.length) :
    (cumsum l).getD j 0 = (l.take (j + 1)).sum := by
  simp only [cumsum]
  rw [getD_tail_real, scanl_getD_sum l 0 (j + 1) hj, zero_add]

theorem take_append_of_le {α : Type} :
    ∀ (l1 l2 : List α) (m : ℕ), m ≤ l1.length → (l1 ++ l2).take m = l1.take m := by
  intro l1
  induction l1 with
  | nil =>
      intro l2 m hm
      have hm0 : m = 0 := Nat.le_zero.mp hm
      subst hm0
      simp
  | cons a t ih =>
      intro l2 m hm
      cases m with
      | zero => simp
      | succ m =>
          simp only [List.cons_append, List.take_succ_cons]
          rw [ih l2 m (Nat.le_of_succ_le_succ hm)]

theorem reverse_take_eq :
    ∀ (l : List ℝ) (k : ℕ), k ≤ l.length →
      l.reverse.take (l.length - k) = (l.drop k).reverse := by
  intro l
  induction l with
  | nil =>
      intro k hk
      simp
  | cons a t ih =>
      intro k hk
      cases k with
      | zero =>
          simp only [Nat.sub_zero, List.drop_zero]
          exact List.take_of_length_le (by simp)
      | succ k =>
          simp only [List.reverse_cons, List.length_cons, List.drop_succ_cons]
          rw [show t.length + 1 - (k + 1) = t.length - k from by omega]
          rw [take_append_of_le _ _ _ (by simp)]
          exact ih k (Nat.le_of_succ_le_succ hk)

theorem cum_weight_getD (vel : List ℝ) (k : ℕ) (hk : k < vel.length) :
    (cum_weight vel).getD k 0 = ((vel.drop k).map (fun v => 1 / v)).sum := by
  simp only [cum_weight]
  set m := vel.reverse.map (fun v => 1 / v) with hm
  have hmlen : m.length = vel.length := by simp [hm]
  have hclen : (cumsum m).length = vel.length := by
    simp [cumsum, List.length_scanl, hmlen]
  rw [List.getD_eq_getElem?_getD, List.getElem?_reverse (by omega),
    List.getElem?_eq_getElem (by omega), Option.getD_some]
  have h1 : (cumsum m).getD (vel.length - 1 - k) 0 = (m.take (vel.length - 1 - k + 1)).sum :=
    cumsum_getD m _ (by omega)
  rw [List.getD_eq_getElem?_getD, List.getElem?_eq_getElem (by omega),
    Option.getD_some] at h1
  simp only [hclen]
  rw [h1, show vel.length - 1 - k + 1 = vel.length - k from by omega, hm,
    ← List.map_take, reverse_take_eq vel k (le_of_lt hk), List.map_reverse]
  exact List.sum_reverse _

theorem searchsorted_le_length (vel : List ℝ) (v : ℝ) :
    searchsorted vel v ≤ vel.length := by
  simp only [searchsorted]
  exact List.countP_le_length _

theorem est_eq_tail {vel : List ℝ} (hs : List.Sorted (· ≤ ·) vel) (v : ℝ) :
    (if searchsorted vel v = vel.length then (0 : ℝ)
      else (cum_weight vel).getD (searchsorted vel v) 0) = specTailSum vel v := by
  by_cases he : searchsorted vel v = vel.length
  · rw [if_pos he]
    have hdrop := drop_searchsorted_eq_filter hs v
    rw [he, List.drop_length] at hdrop
    simp only [specTailSum, ← hdrop]
    simp
  · rw [if_neg he]
    rw [cum_weight_getD vel _ (lt_of_le_of_ne (searchsorted_le_length vel v) he),
      drop_searchsorted_eq_filter hs v]
    rfl

theorem pdistAt_spec (vel vbord : List ℝ) (hs : List.Sorted (· ≤ ·) vel)
    (hpos : ∀ v ∈ vel, 0 ≤ v) (ix : ℕ)
    (hlohi : (0 :: vbord).getD ix 0 ≤ (0 :: vbord).getD (ix + 1) 0) :
    pdistAt vel vbord ix = specTailSum vel ((0 :: vbord).getD (ix + 1) 0) +
      specInBinSum vel ((0 :: vbord).getD ix 0) ((0 :: vbord).getD (ix + 1) 0) /
        ((0 :: vbord).getD (ix + 1) 0 - (0 :: vbord).getD ix 0) := by
  have hupper : (0 :: vbord).getD (ix + 1) 0 = vbord.getD ix 0 := List.getD_cons_succ
  have hixlo : (if ix = 0 then 0 else searchsorted vel (vbord.getD (ix - 1) 0)) =
      searchsorted vel ((0 :: vbord).getD ix 0) := by
    cases ix with
    | zero =>
        rw [if_pos rfl]
        symm
        exact searchsorted_eq_zero fun x hx hc => absurd (hpos x hx) (not_le.mpr hc)
    | succ j =>
        rw [if_neg (Nat.succ_ne_zero j)]
        rfl
  show (if searchsorted vel (vbord.getD ix 0) = vel.length then (0 : ℝ)
      else (cum_weight vel).getD (searchsorted vel (vbord.getD ix 0)) 0) +
      (((vel.drop (if ix = 0 then 0 else searchsorted vel (vbord.getD (ix - 1) 0))).take
        (searchsorted vel (vbord.getD ix 0) -
          (if ix = 0 then 0 else searchsorted vel (vbord.getD (ix - 1) 0)))).map
        (fun v => (v - (0 :: vbord).getD ix 0) / v)).sum /
      ((0 :: vbord).getD (ix + 1) 0 - (0 :: vbord).getD ix 0) = _
  rw [hixlo, ← hupper, est_eq_tail hs, slice_searchsorted_eq_filter hs hlohi]
  rfl

/-- **C5** amended: each positive-side bin value before mirroring equals the
tail correction plus the in-bin sum divided by the bin width — only the
in-bin sum is divided by the width, the tail correction is added undivided;
the mirrored two-sided density is then normalized by dividing by `2 N`. -/
theorem single_epoch_bin_value_amended (vel vbord : List ℝ)
    (hs : List.Sorted (· ≤ ·) vel) (hpos : ∀ v ∈ vel, 0 ≤ v) (ix : ℕ)
    (hlohi : (0 :: vbord).getD ix 0 ≤ (0 :: vbord).getD (ix + 1) 0) :
    pdistAt vel vbord ix = specTailSum vel ((0 :: vbord).getD (ix + 1) 0) +
      specInBinSum vel ((0 :: vbord).getD ix 0) ((0 :: vbord).getD (ix + 1) 0) /
        ((0 :: vbord).getD (ix + 1) 0 - (0 :: vbord).getD ix 0) ∧
    probOf vel vbord = ((pdistList vel vbord).reverse ++ pdistList vel vbord).map
      (fun p => p / (2 * (vel.length : ℝ))) ∧
    (∀ l : List ℝ, List.Sorted (· ≤ ·) (sortR l)) := by
  refine ⟨pdistAt_spec vel vbord hs hpos ix hlohi, ?_, ?_⟩
  · simp only [probOf]
    apply List.map_congr_left
    intro p hp
    rw [div_div]
  · intro l
    exact List.sorted_insertionSort _ l

/-- **C5** counterexample: for sorted speeds `[2, 20]` and boundaries
`[1, 10]`, the second positive-side bin value computed by `single_epoch`
(`1/20 + ((2-1)/2)/9`) differs from the claim's
`(in-bin sum + tail correction)/width` (`((2-1)/2 + 1/20)/9`): the code adds
the tail correction undivided. -/
theorem single_epoch_bin_value_cex :
    pdistAt [2, 20] [1, 10] 1 ≠ specBinValueClaimed [2, 20] 1 10 := by
  have hsorted : List.Sorted (· ≤ ·) [(2 : ℝ), 20] := by
    rw [List.sorted_cons]
    refine ⟨?_, List.sorted_singleton 20⟩
    intro b hb
    simp only [List.mem_singleton] at hb
    rw [hb]
    norm_num
  have hpos : ∀ v ∈ [(2 : ℝ), 20], 0 ≤ v := by
    intro v hv
    simp only [List.mem_cons, List.mem_singleton] at hv
    rcases hv with rfl | rfl | h
    · norm_num
    · norm_num
    · simp at h
  have hlohi : ((0 : ℝ) :: [1, 10]).getD 1 0 ≤ ((0 : ℝ) :: [1, 10]).getD 2 0 := by
    show (1 : ℝ) ≤ 10
    norm_num
  have hspec := pdistAt_spec [2, 20] [1, 10] hsorted hpos 1 hlohi
  have hg1 : (((0 : ℝ) :: [1, 10]).getD 1 0) = 1 := rfl
  have hg2 : (((0 : ℝ) :: [1, 10]).getD 2 0) = 10 := rfl
  rw [hg1, hg2] at hspec
  have htail : specTailSum [(2 : ℝ), 20] 10 = 1 / 20 := by
    simp only [specTailSum, List.filter_cons, List.filter_nil, decide_eq_true_eq]
    norm_num
  have hin : specInBinSum [(2 : ℝ), 20] 1 10 = (2 - 1) / 2 := by
    simp only [specInBinSum, List.filter_cons, List.filter_nil, Bool.and_eq_true,
      decide_eq_true_eq]
    norm_num
  rw [hspec, htail, hin]
  simp only [specBinValueClaimed, htail, hin]
  norm_num

/-- Witness for the amended C5 at the sorted speeds `[2, 20]` and boundary
list `[1, 10]`, second bin. -/
theorem single_epoch_bin_value_amended_witness :
    (pdistAt [2, 20] [1, 10] 1 = specTailSum [2, 20] (((0 : ℝ) :: [1, 10]).getD 2 0) +
      specInBinSum [2, 20] (((0 : ℝ) :: [1, 10]).getD 1 0) (((0 : ℝ) :: [1, 10]).getD 2 0) /
        ((((0 : ℝ) :: [1, 10]).getD 2 0) - (((0 : ℝ) :: [1, 10]).getD 1 0)) ∧
    probOf [2, 20] [1, 10] = ((pdistList [2, 20] [1, 10]).reverse ++
      pdistList [2, 20] [1, 10]).map
        (fun p => p / (2 * (([2, 20] : List ℝ).length : ℝ))) ∧
    (∀ l : List ℝ, List.Sorted (· ≤ ·) (sortR l))) := by
  refine single_epoch_bin_value_amended [2, 20] [1, 10] ?_ ?_ 1 ?_
  · rw [List.sorted_cons]
    refine ⟨?_, List.sorted_singleton 20⟩
    intro b hb
    simp only [List.mem_singleton] at hb
    rw [hb]
    norm_num
  · intro v hv
    simp only [List.mem_cons, List.mem_singleton] at hv
    rcases hv with rfl | rfl | h
    · norm_num
    · norm_num
    · simp at h
  · show (1 : ℝ) ≤ 10
    norm_num
